/-
Verification of the BoringCrypto SHA streaming adapters and their
marshal/unmarshal state codec (src/crypto/internal/boring/sha.go).

The codec (MarshalBinary / UnmarshalBinary and the byte-order helpers) is
translated directly from the Go source.  The primitive Init / Update / Final
operations live in the external BoringSSL library and are not part of the
repository source; following the specification, they are modelled abstractly:
the compression function is a parameter, the buffering / counter behaviour is
the one the specification describes (full blocks are absorbed immediately,
the buffer holds the not-yet-processed tail, the counters track total bits).

Machine integers are modelled as Nat with explicit reductions modulo
2 ^ 32 / 2 ^ 64 / 2 ^ 128 where the Go code performs fixed-width arithmetic.
Byte strings are List Nat (each entry a byte value).
-/
import Mathlib

set_option maxHeartbeats 1000000
set_option maxRecDepth 100000

/-! ### Byte-order helpers (translated from putUint32 / putUint64 /
consumeUint32 / consumeUint64 / appendUint32 / appendUint64 in sha.go) -/

/-- putUint32 from the source: the four big-endian bytes of a 32-bit word.
Each Go `byte(e)` cast is the explicit `% 256`. -/
def putUint32 (s : Nat) : List Nat :=
  [s / 2 ^ 24 % 256, s / 2 ^ 16 % 256, s / 2 ^ 8 % 256, s % 256]

/-- putUint64 from the source: the eight big-endian bytes of a 64-bit word. -/
def putUint64 (s : Nat) : List Nat :=
  [s / 2 ^ 56 % 256, s / 2 ^ 48 % 256, s / 2 ^ 40 % 256, s / 2 ^ 32 % 256,
   s / 2 ^ 24 % 256, s / 2 ^ 16 % 256, s / 2 ^ 8 % 256, s % 256]

/-- appendUint32 from the source. -/
def appendUint32 (b : List Nat) (x : Nat) : List Nat := b ++ putUint32 x

/-- appendUint64 from the source. -/
def appendUint64 (b : List Nat) (x : Nat) : List Nat := b ++ putUint64 x

/-- consumeUint32 from the source: read a big-endian 32-bit word off the
front of the buffer.  The source combines the four byte fields with `|`;
they occupy disjoint bit ranges. -/
def consumeUint32 (b : List Nat) : List Nat × Nat :=
  (b.drop 4,
    ((b.getD 3 0 ||| b.getD 2 0 * 2 ^ 8) ||| b.getD 1 0 * 2 ^ 16) |||
      b.getD 0 0 * 2 ^ 24)

/-- consumeUint64 from the source: read a big-endian 64-bit word off the
front of the buffer. -/
def consumeUint64 (b : List Nat) : List Nat × Nat :=
  (b.drop 8,
    ((((((b.getD 7 0 ||| b.getD 6 0 * 2 ^ 8) ||| b.getD 5 0 * 2 ^ 16) |||
      b.getD 4 0 * 2 ^ 24) ||| b.getD 3 0 * 2 ^ 32) ||| b.getD 2 0 * 2 ^ 40) |||
      b.getD 1 0 * 2 ^ 48) ||| b.getD 0 0 * 2 ^ 56)

/-! ### Magic tags and marshaled sizes (constants from sha.go) -/

/-- The string constant `"sha\x01"` as bytes. -/
def sha1Magic : List Nat := [0x73, 0x68, 0x61, 0x01]

def sha1MarshaledSize : Nat := sha1Magic.length + 5 * 4 + 64 + 8

/-- The string constant `"sha\x02"` as bytes. -/
def magic224 : List Nat := [0x73, 0x68, 0x61, 0x02]

/-- The string constant `"sha\x03"` as bytes. -/
def magic256 : List Nat := [0x73, 0x68, 0x61, 0x03]

def marshaledSize256 : Nat := magic256.length + 8 * 4 + 64 + 8

/-- The string constant `"sha\x04"` as bytes. -/
def magic384 : List Nat := [0x73, 0x68, 0x61, 0x04]

/-- The string constant `"sha\x05"` as bytes (reserved, unused variant). -/
def magic512_224 : List Nat := [0x73, 0x68, 0x61, 0x05]

/-- The string constant `"sha\x06"` as bytes (reserved, unused variant). -/
def magic512_256 : List Nat := [0x73, 0x68, 0x61, 0x06]

/-- The string constant `"sha\x07"` as bytes. -/
def magic512 : List Nat := [0x73, 0x68, 0x61, 0x07]

def marshaledSize512 : Nat := magic512.length + 8 * 8 + 128 + 8

/-! ### The context records (sha1Ctx, sha256Ctx, sha512Ctx from sha.go).
The chaining-value arrays are records of words, since the source only ever
addresses them by constant index. -/

/-- Five 32-bit chaining words (the `h [5]uint32` field of sha1Ctx). -/
@[ext]
structure Words5 where
  w0 : Nat
  w1 : Nat
  w2 : Nat
  w3 : Nat
  w4 : Nat
deriving DecidableEq

/-- Eight chaining words (the `h [8]uint32` of sha256Ctx and the
`h [8]uint64` of sha512Ctx). -/
@[ext]
structure Words8 where
  w0 : Nat
  w1 : Nat
  w2 : Nat
  w3 : Nat
  w4 : Nat
  w5 : Nat
  w6 : Nat
  w7 : Nat
deriving DecidableEq

/-- sha1Ctx from the source: chaining words, split 64-bit bit counter
(nl low 32 bits, nh high 32 bits), 64-byte pending buffer, valid count. -/
@[ext]
structure Sha1Ctx where
  h : Words5
  nl : Nat
  nh : Nat
  x : List Nat
  nx : Nat
deriving DecidableEq

/-- sha256Ctx from the source (shared by the SHA-224 and SHA-256 adapters). -/
@[ext]
structure Sha256Ctx where
  h : Words8
  nl : Nat
  nh : Nat
  x : List Nat
  nx : Nat
deriving DecidableEq

/-- sha512Ctx from the source (shared by the SHA-384 and SHA-512 adapters):
split 128-bit bit counter (nl, nh each 64 bits), 128-byte pending buffer. -/
@[ext]
structure Sha512Ctx where
  h : Words8
  nl : Nat
  nh : Nat
  x : List Nat
  nx : Nat
deriving DecidableEq

/-! ### Block absorption, modelled from the spec.
The compression function itself is out of scope of the specification and is
a parameter everywhere. -/

/-- Fuel-indexed worker for `absorb`; the fuel is instantiated with the
length of the input, which bounds the number of full blocks. -/
def absorbAux {H : Type} (B : Nat) (compress : H → List Nat → H) :
    Nat → H → List Nat → H × List Nat
  | 0, h, l => (h, l)
  | fuel + 1, h, l =>
    if B ≤ l.length then
      absorbAux B compress fuel (compress h (l.take B)) (l.drop B)
    else (h, l)

/-- Modelled from the spec: repeatedly absorb full `B`-byte blocks into the
chaining state via the compression function; a full block is always
immediately absorbed, and the remainder (strictly shorter than `B`) is the
pending tail. -/
def absorb {H : Type} (B : Nat) (compress : H → List Nat → H)
    (h : H) (l : List Nat) : H × List Nat :=
  absorbAux B compress l.length h l

/-- Modelled from the spec: the primitive SHA1_Update operation (external
BoringSSL code, not in the repository source).  The pending tail of the
buffer is extended by the new input, full 64-byte blocks are absorbed into
the chaining values, and the split 64-bit total-bit counter (nl low word,
nh high word) advances by 8 bits per input byte. -/
def sha1Update (compress : Words5 → List Nat → Words5)
    (d : Sha1Ctx) (p : List Nat) : Sha1Ctx :=
  let pending := d.x.take d.nx ++ p
  let r := absorb 64 compress d.h pending
  let bits := (d.nh * 2 ^ 32 + d.nl + 8 * p.length) % 2 ^ 64
  { h := r.1, nl := bits % 2 ^ 32, nh := bits / 2 ^ 32,
    x := r.2 ++ List.replicate (64 - r.2.length) 0, nx := r.2.length }

/-- Modelled from the spec: the primitive SHA256_Update operation (also used
for SHA-224), identical to SHA1_Update except for the chaining state. -/
def sha256Update (compress : Words8 → List Nat → Words8)
    (d : Sha256Ctx) (p : List Nat) : Sha256Ctx :=
  let pending := d.x.take d.nx ++ p
  let r := absorb 64 compress d.h pending
  let bits := (d.nh * 2 ^ 32 + d.nl + 8 * p.length) % 2 ^ 64
  { h := r.1, nl := bits % 2 ^ 32, nh := bits / 2 ^ 32,
    x := r.2 ++ List.replicate (64 - r.2.length) 0, nx := r.2.length }

/-- Modelled from the spec: the primitive SHA512_Update operation (also used
for SHA-384): 128-byte blocks and a split 128-bit bit counter. -/
def sha512Update (compress : Words8 → List Nat → Words8)
    (d : Sha512Ctx) (p : List Nat) : Sha512Ctx :=
  let pending := d.x.take d.nx ++ p
  let r := absorb 128 compress d.h pending
  let bits := (d.nh * 2 ^ 64 + d.nl + 8 * p.length) % 2 ^ 128
  { h := r.1, nl := bits % 2 ^ 64, nh := bits / 2 ^ 64,
    x := r.2 ++ List.replicate (128 - r.2.length) 0, nx := r.2.length }

/-! ### Reset, modelled from the spec: chaining values set to the initial
constants of the algorithm (abstract here, a parameter), buffer and counters
zeroed. -/

/-- Modelled from the spec: SHA1_Init (external BoringSSL code). -/
def sha1Reset (iv : Words5) : Sha1Ctx :=
  { h := iv, nl := 0, nh := 0, x := List.replicate 64 0, nx := 0 }

/-- Modelled from the spec: SHA224_Init / SHA256_Init (external). -/
def sha256Reset (iv : Words8) : Sha256Ctx :=
  { h := iv, nl := 0, nh := 0, x := List.replicate 64 0, nx := 0 }

/-- Modelled from the spec: SHA384_Init / SHA512_Init (external). -/
def sha512Reset (iv : Words8) : Sha512Ctx :=
  { h := iv, nl := 0, nh := 0, x := List.replicate 128 0, nx := 0 }

/-! ### The success flag of the primitive Update, modelled from the spec:
Update returns falsy only on an internal-invariant violation, which the
specification declares unreachable for valid contexts and any-length input. -/

/-- Modelled from the spec: the success flag returned by the primitive
SHA*_Update calls (external BoringSSL code); always true. -/
def shaUpdateOk : Bool := true

/-! ### The Write methods.  Go shape (sha.go lines 141-146 and analogues):
`if len(p) > 0 && Update(...) == 0 { panic(...) }; return len(p), nil`.
A panic is modelled as `Except.error`; the normal return carries the
mutated context together with the Go return values `(len(p), nil)`. -/

/-- The state effect of a Write call: the primitive Update runs only when
the input is non-empty (the `len(p) > 0` guard). -/
def sha1WriteSt (compress : Words5 → List Nat → Words5)
    (d : Sha1Ctx) (p : List Nat) : Sha1Ctx :=
  if 0 < p.length then sha1Update compress d p else d

/-- (*sha1Hash).Write translated from the source. -/
def sha1Write (compress : Words5 → List Nat → Words5)
    (d : Sha1Ctx) (p : List Nat) :
    Except String (Sha1Ctx × Nat × Option String) :=
  if 0 < p.length then
    if shaUpdateOk then Except.ok (sha1Update compress d p, p.length, none)
    else Except.error "boringcrypto: SHA1_Update failed"
  else Except.ok (d, p.length, none)

/-- The state effect of (*sha224Hash).Write and (*sha256Hash).Write. -/
def sha256WriteSt (compress : Words8 → List Nat → Words8)
    (d : Sha256Ctx) (p : List Nat) : Sha256Ctx :=
  if 0 < p.length then sha256Update compress d p else d

/-- (*sha224Hash).Write translated from the source. -/
def sha224Write (compress : Words8 → List Nat → Words8)
    (d : Sha256Ctx) (p : List Nat) :
    Except String (Sha256Ctx × Nat × Option String) :=
  if 0 < p.length then
    if shaUpdateOk then Except.ok (sha256Update compress d p, p.length, none)
    else Except.error "boringcrypto: SHA224_Update failed"
  else Except.ok (d, p.length, none)

/-- (*sha256Hash).Write translated from the source. -/
def sha256Write (compress : Words8 → List Nat → Words8)
    (d : Sha256Ctx) (p : List Nat) :
    Except String (Sha256Ctx × Nat × Option String) :=
  if 0 < p.length then
    if shaUpdateOk then Except.ok (sha256Update compress d p, p.length, none)
    else Except.error "boringcrypto: SHA256_Update failed"
  else Except.ok (d, p.length, none)

/-- The state effect of (*sha384Hash).Write and (*sha512Hash).Write. -/
def sha512WriteSt (compress : Words8 → List Nat → Words8)
    (d : Sha512Ctx) (p : List Nat) : Sha512Ctx :=
  if 0 < p.length then sha512Update compress d p else d

/-- (*sha384Hash).Write translated from the source. -/
def sha384Write (compress : Words8 → List Nat → Words8)
    (d : Sha512Ctx) (p : List Nat) :
    Except String (Sha512Ctx × Nat × Option String) :=
  if 0 < p.length then
    if shaUpdateOk then Except.ok (sha512Update compress d p, p.length, none)
    else Except.error "boringcrypto: SHA384_Update failed"
  else Except.ok (d, p.length, none)

/-- (*sha512Hash).Write translated from the source. -/
def sha512Write (compress : Words8 → List Nat → Words8)
    (d : Sha512Ctx) (p : List Nat) :
    Except String (Sha512Ctx × Nat × Option String) :=
  if 0 < p.length then
    if shaUpdateOk then Except.ok (sha512Update compress d p, p.length, none)
    else Except.error "boringcrypto: SHA512_Update failed"
  else Except.ok (d, p.length, none)

/-! ### WriteString and WriteByte (defined in the source only for the SHA-1,
SHA-256, SHA-384 and SHA-512 adapters).  Go strings are byte lists here. -/

/-- (*sha1Hash).WriteString translated from the source. -/
def sha1WriteString (compress : Words5 → List Nat → Words5)
    (d : Sha1Ctx) (s : List Nat) :
    Except String (Sha1Ctx × Nat × Option String) :=
  if 0 < s.length then
    if shaUpdateOk then Except.ok (sha1Update compress d s, s.length, none)
    else Except.error "boringcrypto: SHA1_Update failed"
  else Except.ok (d, s.length, none)

/-- (*sha1Hash).WriteByte translated from the source (no length guard:
the one-byte Update always runs). -/
def sha1WriteByte (compress : Words5 → List Nat → Words5)
    (d : Sha1Ctx) (c : Nat) :
    Except String (Sha1Ctx × Option String) :=
  if shaUpdateOk then Except.ok (sha1Update compress d [c], none)
  else Except.error "boringcrypto: SHA1_Update failed"

/-- (*sha256Hash).WriteString translated from the source. -/
def sha256WriteString (compress : Words8 → List Nat → Words8)
    (d : Sha256Ctx) (s : List Nat) :
    Except String (Sha256Ctx × Nat × Option String) :=
  if 0 < s.length then
    if shaUpdateOk then Except.ok (sha256Update compress d s, s.length, none)
    else Except.error "boringcrypto: SHA256_Update failed"
  else Except.ok (d, s.length, none)

/-- (*sha256Hash).WriteByte translated from the source. -/
def sha256WriteByte (compress : Words8 → List Nat → Words8)
    (d : Sha256Ctx) (c : Nat) :
    Except String (Sha256Ctx × Option String) :=
  if shaUpdateOk then Except.ok (sha256Update compress d [c], none)
  else Except.error "boringcrypto: SHA256_Update failed"

/-- (*sha384Hash).WriteString translated from the source. -/
def sha384WriteString (compress : Words8 → List Nat → Words8)
    (d : Sha512Ctx) (s : List Nat) :
    Except String (Sha512Ctx × Nat × Option String) :=
  if 0 < s.length then
    if shaUpdateOk then Except.ok (sha512Update compress d s, s.length, none)
    else Except.error "boringcrypto: SHA384_Update failed"
  else Except.ok (d, s.length, none)

/-- (*sha384Hash).WriteByte translated from the source. -/
def sha384WriteByte (compress : Words8 → List Nat → Words8)
    (d : Sha512Ctx) (c : Nat) :
    Except String (Sha512Ctx × Option String) :=
  if shaUpdateOk then Except.ok (sha512Update compress d [c], none)
  else Except.error "boringcrypto: SHA384_Update failed"

/-- (*sha512Hash).WriteString translated from the source. -/
def sha512WriteString (compress : Words8 → List Nat → Words8)
    (d : Sha512Ctx) (s : List Nat) :
    Except String (Sha512Ctx × Nat × Option String) :=
  if 0 < s.length then
    if shaUpdateOk then Except.ok (sha512Update compress d s, s.length, none)
    else Except.error "boringcrypto: SHA512_Update failed"
  else Except.ok (d, s.length, none)

/-- (*sha512Hash).WriteByte translated from the source. -/
def sha512WriteByte (compress : Words8 → List Nat → Words8)
    (d : Sha512Ctx) (c : Nat) :
    Except String (Sha512Ctx × Option String) :=
  if shaUpdateOk then Except.ok (sha512Update compress d [c], none)
  else Except.error "boringcrypto: SHA512_Update failed"

/-! ### sum.  The Go methods copy the receiver (`h := *h0`), run the
primitive Final on the copy, and append the digest to dst; the receiver is
untouched.  Final (external code) is abstract: a parameter producing the
digest bytes of a context. -/

/-- (*sha1Hash).sum translated from the source: the returned context is the
receiver itself (Final runs on a value copy), and the digest of the copied
state is appended to dst. -/
def sha1Sum (finalFn : Sha1Ctx → List Nat) (d : Sha1Ctx) (dst : List Nat) :
    Sha1Ctx × List Nat :=
  (d, dst ++ finalFn d)

/-- (*sha224Hash).sum / (*sha256Hash).sum translated from the source. -/
def sha256Sum (finalFn : Sha256Ctx → List Nat) (d : Sha256Ctx)
    (dst : List Nat) : Sha256Ctx × List Nat :=
  (d, dst ++ finalFn d)

/-- (*sha384Hash).sum / (*sha512Hash).sum translated from the source. -/
def sha512Sum (finalFn : Sha512Ctx → List Nat) (d : Sha512Ctx)
    (dst : List Nat) : Sha512Ctx × List Nat :=
  (d, dst ++ finalFn d)

/-! ### Reachability: the context produced by a sequence of Write calls on a
freshly Reset adapter. -/

/-- The context after Reset followed by the given sequence of Write calls
(SHA-1 adapter). -/
def sha1Writes (compress : Words5 → List Nat → Words5) (iv : Words5)
    (ms : List (List Nat)) : Sha1Ctx :=
  ms.foldl (sha1WriteSt compress) (sha1Reset iv)

/-- The context after Reset followed by the given sequence of Write calls
(SHA-224 / SHA-256 adapters). -/
def sha256Writes (compress : Words8 → List Nat → Words8) (iv : Words8)
    (ms : List (List Nat)) : Sha256Ctx :=
  ms.foldl (sha256WriteSt compress) (sha256Reset iv)

/-- The context after Reset followed by the given sequence of Write calls
(SHA-384 / SHA-512 adapters). -/
def sha512Writes (compress : Words8 → List Nat → Words8) (iv : Words8)
    (ms : List (List Nat)) : Sha512Ctx :=
  ms.foldl (sha512WriteSt compress) (sha512Reset iv)

/-- Total number of bytes in a sequence of writes. -/
def totalLen (ms : List (List Nat)) : Nat :=
  (ms.map List.length).sum

/-! ### The total-length field packing (the expressions on sha.go lines 186,
205-208 for the 32-bit-word variants and 534/552, 605-608 for the
64-bit-word variants, factored into named functions). -/

/-- The marshaled length field of the 32-bit-word variants:
`uint64(d.nl)>>3 | uint64(d.nh)<<29` (no 64-bit overflow is possible for
32-bit nl, nh). -/
def lenPack32 (nl nh : Nat) : Nat :=
  nl / 2 ^ 3 ||| nh * 2 ^ 29

/-- Decoding of the length field for the 32-bit-word variants:
`nl = uint32(n << 3); nh = uint32(n >> 29); nx = uint32(n) % 64`, with the
64-bit shift and the 32-bit casts made explicit. -/
def lenUnpack32 (n : Nat) : Nat × Nat × Nat :=
  (n * 2 ^ 3 % 2 ^ 64 % 2 ^ 32, n / 2 ^ 29 % 2 ^ 32, n % 2 ^ 32 % 64)

/-- The marshaled length field of the 64-bit-word variants:
`d.nl>>3 | d.nh<<61`, the 64-bit shift wrapping made explicit. -/
def lenPack64 (nl nh : Nat) : Nat :=
  nl / 2 ^ 3 ||| nh * 2 ^ 61 % 2 ^ 64

/-- Decoding of the length field for the 64-bit-word variants:
`nl = n << 3; nh = n >> 61; nx = uint32(n) % 128`. -/
def lenUnpack64 (n : Nat) : Nat × Nat × Nat :=
  (n * 2 ^ 3 % 2 ^ 64, n / 2 ^ 61, n % 2 ^ 32 % 128)

/-! ### MarshalBinary (translated from sha.go).  The Go methods return
([]byte, error) with the error always nil; the zero padding of the buffer
section comes from the zeroed capacity of the allocation. -/

/-- (*sha1Hash).MarshalBinary translated from the source. -/
def sha1MarshalBinary (d : Sha1Ctx) : List Nat × Option String :=
  let b := sha1Magic
  let b := appendUint32 b d.h.w0
  let b := appendUint32 b d.h.w1
  let b := appendUint32 b d.h.w2
  let b := appendUint32 b d.h.w3
  let b := appendUint32 b d.h.w4
  let b := b ++ d.x.take d.nx
  let b := b ++ List.replicate (64 - d.nx) 0
  let b := appendUint64 b (lenPack32 d.nl d.nh)
  (b, none)

/-- (*sha224Hash).MarshalBinary translated from the source. -/
def sha224MarshalBinary (d : Sha256Ctx) : List Nat × Option String :=
  let b := magic224
  let b := appendUint32 b d.h.w0
  let b := appendUint32 b d.h.w1
  let b := appendUint32 b d.h.w2
  let b := appendUint32 b d.h.w3
  let b := appendUint32 b d.h.w4
  let b := appendUint32 b d.h.w5
  let b := appendUint32 b d.h.w6
  let b := appendUint32 b d.h.w7
  let b := b ++ d.x.take d.nx
  let b := b ++ List.replicate (64 - d.nx) 0
  let b := appendUint64 b (lenPack32 d.nl d.nh)
  (b, none)

/-- (*sha256Hash).MarshalBinary translated from the source. -/
def sha256MarshalBinary (d : Sha256Ctx) : List Nat × Option String :=
  let b := magic256
  let b := appendUint32 b d.h.w0
  let b := appendUint32 b d.h.w1
  let b := appendUint32 b d.h.w2
  let b := appendUint32 b d.h.w3
  let b := appendUint32 b d.h.w4
  let b := appendUint32 b d.h.w5
  let b := appendUint32 b d.h.w6
  let b := appendUint32 b d.h.w7
  let b := b ++ d.x.take d.nx
  let b := b ++ List.replicate (64 - d.nx) 0
  let b := appendUint64 b (lenPack32 d.nl d.nh)
  (b, none)

/-- (*sha384Hash).MarshalBinary translated from the source. -/
def sha384MarshalBinary (d : Sha512Ctx) : List Nat × Option String :=
  let b := magic384
  let b := appendUint64 b d.h.w0
  let b := appendUint64 b d.h.w1
  let b := appendUint64 b d.h.w2
  let b := appendUint64 b d.h.w3
  let b := appendUint64 b d.h.w4
  let b := appendUint64 b d.h.w5
  let b := appendUint64 b d.h.w6
  let b := appendUint64 b d.h.w7
  let b := b ++ d.x.take d.nx
  let b := b ++ List.replicate (128 - d.nx) 0
  let b := appendUint64 b (lenPack64 d.nl d.nh)
  (b, none)

/-- (*sha512Hash).MarshalBinary translated from the source. -/
def sha512MarshalBinary (d : Sha512Ctx) : List Nat × Option String :=
  let b := magic512
  let b := appendUint64 b d.h.w0
  let b := appendUint64 b d.h.w1
  let b := appendUint64 b d.h.w2
  let b := appendUint64 b d.h.w3
  let b := appendUint64 b d.h.w4
  let b := appendUint64 b d.h.w5
  let b := appendUint64 b d.h.w6
  let b := appendUint64 b d.h.w7
  let b := b ++ d.x.take d.nx
  let b := b ++ List.replicate (128 - d.nx) 0
  let b := appendUint64 b (lenPack64 d.nl d.nh)
  (b, none)

/-! ### UnmarshalBinary (translated from sha.go).  The Go methods mutate the
receiver and return an error; here they return the new context paired with
the error, the receiver being returned unchanged on the error paths. -/

/-- (*sha1Hash).UnmarshalBinary translated from the source. -/
def sha1UnmarshalBinary (d : Sha1Ctx) (b : List Nat) :
    Sha1Ctx × Option String :=
  if b.length < sha1Magic.length ∨ b.take sha1Magic.length ≠ sha1Magic then
    (d, some "crypto/sha1: invalid hash state identifier")
  else if b.length ≠ sha1MarshaledSize then
    (d, some "crypto/sha1: invalid hash state size")
  else
    let b := b.drop sha1Magic.length
    let r0 := consumeUint32 b
    let r1 := consumeUint32 r0.1
    let r2 := consumeUint32 r1.1
    let r3 := consumeUint32 r2.1
    let r4 := consumeUint32 r3.1
    let x := r4.1.take 64
    let rn := consumeUint64 (r4.1.drop 64)
    let u := lenUnpack32 rn.2
    ({ h := ⟨r0.2, r1.2, r2.2, r3.2, r4.2⟩,
       nl := u.1, nh := u.2.1, x := x, nx := u.2.2 }, none)

/-- (*sha224Hash).UnmarshalBinary translated from the source. -/
def sha224UnmarshalBinary (d : Sha256Ctx) (b : List Nat) :
    Sha256Ctx × Option String :=
  if b.length < magic224.length ∨ b.take magic224.length ≠ magic224 then
    (d, some "crypto/sha256: invalid hash state identifier")
  else if b.length ≠ marshaledSize256 then
    (d, some "crypto/sha256: invalid hash state size")
  else
    let b := b.drop magic224.length
    let r0 := consumeUint32 b
    let r1 := consumeUint32 r0.1
    let r2 := consumeUint32 r1.1
    let r3 := consumeUint32 r2.1
    let r4 := consumeUint32 r3.1
    let r5 := consumeUint32 r4.1
    let r6 := consumeUint32 r5.1
    let r7 := consumeUint32 r6.1
    let x := r7.1.take 64
    let rn := consumeUint64 (r7.1.drop 64)
    let u := lenUnpack32 rn.2
    ({ h := ⟨r0.2, r1.2, r2.2, r3.2, r4.2, r5.2, r6.2, r7.2⟩,
       nl := u.1, nh := u.2.1, x := x, nx := u.2.2 }, none)

/-- (*sha256Hash).UnmarshalBinary translated from the source. -/
def sha256UnmarshalBinary (d : Sha256Ctx) (b : List Nat) :
    Sha256Ctx × Option String :=
  if b.length < magic256.length ∨ b.take magic256.length ≠ magic256 then
    (d, some "crypto/sha256: invalid hash state identifier")
  else if b.length ≠ marshaledSize256 then
    (d, some "crypto/sha256: invalid hash state size")
  else
    let b := b.drop magic256.length
    let r0 := consumeUint32 b
    let r1 := consumeUint32 r0.1
    let r2 := consumeUint32 r1.1
    let r3 := consumeUint32 r2.1
    let r4 := consumeUint32 r3.1
    let r5 := consumeUint32 r4.1
    let r6 := consumeUint32 r5.1
    let r7 := consumeUint32 r6.1
    let x := r7.1.take 64
    let rn := consumeUint64 (r7.1.drop 64)
    let u := lenUnpack32 rn.2
    ({ h := ⟨r0.2, r1.2, r2.2, r3.2, r4.2, r5.2, r6.2, r7.2⟩,
       nl := u.1, nh := u.2.1, x := x, nx := u.2.2 }, none)

/-- (*sha384Hash).UnmarshalBinary translated from the source (the length
guard uses magic512, the comparison magic384, exactly as in the source). -/
def sha384UnmarshalBinary (d : Sha512Ctx) (b : List Nat) :
    Sha512Ctx × Option String :=
  if b.length < magic512.length then
    (d, some "crypto/sha512: invalid hash state identifier")
  else if b.take magic384.length ≠ magic384 then
    (d, some "crypto/sha512: invalid hash state identifier")
  else if b.length ≠ marshaledSize512 then
    (d, some "crypto/sha512: invalid hash state size")
  else
    let b := b.drop magic512.length
    let r0 := consumeUint64 b
    let r1 := consumeUint64 r0.1
    let r2 := consumeUint64 r1.1
    let r3 := consumeUint64 r2.1
    let r4 := consumeUint64 r3.1
    let r5 := consumeUint64 r4.1
    let r6 := consumeUint64 r5.1
    let r7 := consumeUint64 r6.1
    let x := r7.1.take 128
    let rn := consumeUint64 (r7.1.drop 128)
    let u := lenUnpack64 rn.2
    ({ h := ⟨r0.2, r1.2, r2.2, r3.2, r4.2, r5.2, r6.2, r7.2⟩,
       nl := u.1, nh := u.2.1, x := x, nx := u.2.2 }, none)

/-- (*sha512Hash).UnmarshalBinary translated from the source. -/
def sha512UnmarshalBinary (d : Sha512Ctx) (b : List Nat) :
    Sha512Ctx × Option String :=
  if b.length < magic512.length then
    (d, some "crypto/sha512: invalid hash state identifier")
  else if b.take magic512.length ≠ magic512 then
    (d, some "crypto/sha512: invalid hash state identifier")
  else if b.length ≠ marshaledSize512 then
    (d, some "crypto/sha512: invalid hash state size")
  else
    let b := b.drop magic512.length
    let r0 := consumeUint64 b
    let r1 := consumeUint64 r0.1
    let r2 := consumeUint64 r1.1
    let r3 := consumeUint64 r2.1
    let r4 := consumeUint64 r3.1
    let r5 := consumeUint64 r4.1
    let r6 := consumeUint64 r5.1
    let r7 := consumeUint64 r6.1
    let x := r7.1.take 128
    let rn := consumeUint64 (r7.1.drop 128)
    let u := lenUnpack64 rn.2
    ({ h := ⟨r0.2, r1.2, r2.2, r3.2, r4.2, r5.2, r6.2, r7.2⟩,
       nl := u.1, nh := u.2.1, x := x, nx := u.2.2 }, none)

/-! ### Wire-format layout written independently from the words of spec
section 4.2, for comparison with the translated MarshalBinary. -/

/-- Big-endian base-256 digits, written from the words of the spec
(independently of putUint32 / putUint64): the `k`-byte big-endian
encoding of a word. -/
def beBytes : Nat → Nat → List Nat
  | 0, _ => []
  | k + 1, w => beBytes k (w / 256) ++ [w % 256]

/-- Spec section 4.2 layout for SHA-1: magic tag, chaining values as
big-endian words, valid buffer bytes zero-padded to the block size, packed
total-length field. -/
def sha1SpecLayout (d : Sha1Ctx) : List Nat :=
  sha1Magic ++
    beBytes 4 d.h.w0 ++ beBytes 4 d.h.w1 ++ beBytes 4 d.h.w2 ++
    beBytes 4 d.h.w3 ++ beBytes 4 d.h.w4 ++
    (d.x.take d.nx ++ List.replicate (64 - d.nx) 0) ++
    beBytes 8 (lenPack32 d.nl d.nh)

/-- Spec section 4.2 layout for SHA-224 / SHA-256 (eight 32-bit words). -/
def sha256SpecLayout (magic : List Nat) (d : Sha256Ctx) : List Nat :=
  magic ++
    beBytes 4 d.h.w0 ++ beBytes 4 d.h.w1 ++ beBytes 4 d.h.w2 ++
    beBytes 4 d.h.w3 ++ beBytes 4 d.h.w4 ++ beBytes 4 d.h.w5 ++
    beBytes 4 d.h.w6 ++ beBytes 4 d.h.w7 ++
    (d.x.take d.nx ++ List.replicate (64 - d.nx) 0) ++
    beBytes 8 (lenPack32 d.nl d.nh)

/-- Spec section 4.2 layout for SHA-384 / SHA-512 (eight 64-bit words,
128-byte buffer). -/
def sha512SpecLayout (magic : List Nat) (d : Sha512Ctx) : List Nat :=
  magic ++
    beBytes 8 d.h.w0 ++ beBytes 8 d.h.w1 ++ beBytes 8 d.h.w2 ++
    beBytes 8 d.h.w3 ++ beBytes 8 d.h.w4 ++ beBytes 8 d.h.w5 ++
    beBytes 8 d.h.w6 ++ beBytes 8 d.h.w7 ++
    (d.x.take d.nx ++ List.replicate (128 - d.nx) 0) ++
    beBytes 8 (lenPack64 d.nl d.nh)

/-! ### Well-formedness invariants of reachable contexts, used to prove the
round-trip law. `T` is the total number of bytes written since Reset. -/

/-- All five chaining words fit in 32 bits. -/
def Bounded5 (w : Words5) : Prop :=
  w.w0 < 2 ^ 32 ∧ w.w1 < 2 ^ 32 ∧ w.w2 < 2 ^ 32 ∧ w.w3 < 2 ^ 32 ∧
    w.w4 < 2 ^ 32

/-- All eight chaining words fit in 32 bits. -/
def Bounded8x32 (w : Words8) : Prop :=
  w.w0 < 2 ^ 32 ∧ w.w1 < 2 ^ 32 ∧ w.w2 < 2 ^ 32 ∧ w.w3 < 2 ^ 32 ∧
    w.w4 < 2 ^ 32 ∧ w.w5 < 2 ^ 32 ∧ w.w6 < 2 ^ 32 ∧ w.w7 < 2 ^ 32

/-- All eight chaining words fit in 64 bits. -/
def Bounded8x64 (w : Words8) : Prop :=
  w.w0 < 2 ^ 64 ∧ w.w1 < 2 ^ 64 ∧ w.w2 < 2 ^ 64 ∧ w.w3 < 2 ^ 64 ∧
    w.w4 < 2 ^ 64 ∧ w.w5 < 2 ^ 64 ∧ w.w6 < 2 ^ 64 ∧ w.w7 < 2 ^ 64

/-- Well-formedness of a SHA-1 context that has absorbed `T` total bytes:
the split counter holds the low 64 bits of the total bit count, the pending
count is the byte count modulo the block size, the buffer is the pending
tail padded with zeros, and the words are 32-bit values. -/
def GoodSha1 (d : Sha1Ctx) (T : Nat) : Prop :=
  d.nl = 8 * T % 2 ^ 32 ∧ d.nh = 8 * T % 2 ^ 64 / 2 ^ 32 ∧ d.nx = T % 64 ∧
    d.x.length = 64 ∧ d.x = d.x.take d.nx ++ List.replicate (64 - d.nx) 0 ∧
    Bounded5 d.h

/-- Well-formedness of a SHA-224 / SHA-256 context (same counters and block
size as SHA-1, eight chaining words). -/
def GoodSha256 (d : Sha256Ctx) (T : Nat) : Prop :=
  d.nl = 8 * T % 2 ^ 32 ∧ d.nh = 8 * T % 2 ^ 64 / 2 ^ 32 ∧ d.nx = T % 64 ∧
    d.x.length = 64 ∧ d.x = d.x.take d.nx ++ List.replicate (64 - d.nx) 0 ∧
    Bounded8x32 d.h

/-- Well-formedness of a SHA-384 / SHA-512 context: split 128-bit counter,
128-byte block. -/
def GoodSha512 (d : Sha512Ctx) (T : Nat) : Prop :=
  d.nl = 8 * T % 2 ^ 64 ∧ d.nh = 8 * T % 2 ^ 128 / 2 ^ 64 ∧
    d.nx = T % 128 ∧ d.x.length = 128 ∧
    d.x = d.x.take d.nx ++ List.replicate (128 - d.nx) 0 ∧ Bounded8x64 d.h

/-! ## Lemmas about block absorption -/

theorem absorbAux_step {H : Type} {B : Nat} {c : H → List Nat → H}
    (fuel : Nat) (h : H) (l : List Nat) (hl : B ≤ l.length) :
    absorbAux B c (fuel + 1) h l =
      absorbAux B c fuel (c h (l.take B)) (l.drop B) := by
  rw [absorbAux, if_pos hl]

theorem absorbAux_stop {H : Type} {B : Nat} {c : H → List Nat → H}
    (fuel : Nat) (h : H) (l : List Nat) (hl : l.length < B) :
    absorbAux B c fuel h l = (h, l) := by
  cases fuel with
  | zero => rw [absorbAux]
  | succ k => rw [absorbAux, if_neg (by omega)]

theorem absorbAux_fuel {H : Type} (B : Nat) (c : H → List Nat → H)
    (hB : 0 < B) :
    ∀ n (l : List Nat), l.length = n → ∀ fuel (h : H), l.length ≤ fuel →
      absorbAux B c fuel h l = absorbAux B c l.length h l := by
  intro n
  induction n using Nat.strong_induction_on with
  | _ n ih =>
    intro l hn fuel h hfuel
    by_cases hBl : B ≤ l.length
    · obtain ⟨k, hk⟩ := Nat.exists_eq_succ_of_ne_zero
        (show fuel ≠ 0 by omega)
      have e1 : absorbAux B c fuel h l =
          absorbAux B c k (c h (l.take B)) (l.drop B) := by
        rw [hk, absorbAux_step k h l hBl]
      have hm : l.length = (l.length - 1) + 1 := by omega
      have e2 : absorbAux B c l.length h l =
          absorbAux B c (l.length - 1) (c h (l.take B)) (l.drop B) := by
        conv_lhs => rw [hm]
        exact absorbAux_step (l.length - 1) h l hBl
      have hdl : (l.drop B).length = l.length - B := by
        simp [List.length_drop]
      have hlt : (l.drop B).length < n := by omega
      rw [e1, e2,
        ih (l.drop B).length hlt (l.drop B) rfl k _ (by omega),
        ih (l.drop B).length hlt (l.drop B) rfl (l.length - 1) _ (by omega)]
    · rw [absorbAux_stop fuel h l (by omega),
        absorbAux_stop l.length h l (by omega)]

theorem absorb_short {H : Type} (B : Nat) (c : H → List Nat → H)
    (h : H) (l : List Nat) (hl : l.length < B) :
    absorb B c h l = (h, l) :=
  absorbAux_stop l.length h l hl

theorem absorb_step {H : Type} (B : Nat) (c : H → List Nat → H)
    (h : H) (l : List Nat) (hB : 0 < B) (hl : B ≤ l.length) :
    absorb B c h l = absorb B c (c h (l.take B)) (l.drop B) := by
  unfold absorb
  have hm : l.length = (l.length - 1) + 1 := by omega
  rw [hm, absorbAux_step (l.length - 1) h l hl]
  exact absorbAux_fuel B c hB (l.drop B).length (l.drop B) rfl
    (l.length - 1) (c h (l.take B)) (by simp [List.length_drop]; omega)

theorem absorb_len {H : Type} (B : Nat) (c : H → List Nat → H)
    (hB : 0 < B) :
    ∀ fuel (h : H) (l : List Nat), l.length ≤ fuel →
      (absorb B c h l).2.length = l.length % B := by
  intro fuel
  induction fuel with
  | zero =>
    intro h l hl
    have h0 : l.length = 0 := Nat.le_zero.mp hl
    rw [absorb_short B c h l (by omega), h0, Nat.mod_eq_of_lt hB]
  | succ k ih =>
    intro h l hl
    by_cases hBl : B ≤ l.length
    · rw [absorb_step B c h l hB hBl,
        ih _ _ (by simp [List.length_drop]; omega)]
      simp only [List.length_drop]
      exact (Nat.mod_eq_sub_mod hBl).symm
    · rw [absorb_short B c h l (by omega),
        Nat.mod_eq_of_lt (by omega)]

theorem absorb_append {H : Type} (B : Nat) (c : H → List Nat → H)
    (hB : 0 < B) (l₂ : List Nat) :
    ∀ fuel (h : H) (l₁ : List Nat), l₁.length ≤ fuel →
      absorb B c h (l₁ ++ l₂) =
        absorb B c (absorb B c h l₁).1 ((absorb B c h l₁).2 ++ l₂) := by
  intro fuel
  induction fuel with
  | zero =>
    intro h l₁ hl
    have h0 : l₁ = [] := List.eq_nil_of_length_eq_zero (Nat.le_zero.mp hl)
    rw [h0, absorb_short B c h [] (by simpa using hB)]
  | succ k ih =>
    intro h l₁ hl
    by_cases hBl : B ≤ l₁.length
    · have hlen : B ≤ (l₁ ++ l₂).length := by
        simp [List.length_append]; omega
      rw [absorb_step B c h _ hB hlen, absorb_step B c h l₁ hB hBl]
      have htake : (l₁ ++ l₂).take B = l₁.take B := by
        rw [List.take_append_eq_append_take,
          Nat.sub_eq_zero_of_le hBl, List.take_zero, List.append_nil]
      have hdrop : (l₁ ++ l₂).drop B = l₁.drop B ++ l₂ := by
        rw [List.drop_append_eq_append_drop,
          Nat.sub_eq_zero_of_le hBl, List.drop_zero]
      rw [htake, hdrop]
      exact ih _ _ (by simp [List.length_drop]; omega)
    · rw [absorb_short B c h l₁ (by omega)]

theorem absorb_pres {H : Type} (B : Nat) (c : H → List Nat → H)
    (hB : 0 < B) (P : H → Prop) (hc : ∀ h b, P h → P (c h b)) :
    ∀ fuel (h : H) (l : List Nat), l.length ≤ fuel → P h →
      P (absorb B c h l).1 := by
  intro fuel
  induction fuel with
  | zero =>
    intro h l hl hP
    have h0 : l.length = 0 := Nat.le_zero.mp hl
    rw [absorb_short B c h l (by omega)]
    exact hP
  | succ k ih =>
    intro h l hl hP
    by_cases hBl : B ≤ l.length
    · rw [absorb_step B c h l hB hBl]
      exact ih _ _ (by simp [List.length_drop]; omega) (hc _ _ hP)
    · rw [absorb_short B c h l (by omega)]
      exact hP

theorem absorb_const {H : Type} (B : Nat) (c : H → List Nat → H)
    (hB : 0 < B) (hc : ∀ h b, c h b = h) (h : H) (l : List Nat) :
    (absorb B c h l).1 = h :=
  absorb_pres B c hB (· = h) (fun _ b he => by rw [hc _ b, he])
    l.length h l (le_refl _) rfl

/-! ## Byte-order round trips -/

/-- An or of a value below `2 ^ k` with a multiple of `2 ^ k` is their sum
(the bit ranges are disjoint). -/
theorem lor_mul_pow (acc m k : Nat) (hacc : acc < 2 ^ k) :
    acc ||| m * 2 ^ k = acc + m * 2 ^ k := by
  rw [Nat.lor_comm, Nat.mul_comm, Nat.add_comm]
  exact (Nat.mul_add_lt_is_or hacc m).symm

theorem putUint32_length (w : Nat) : (putUint32 w).length = 4 := rfl

theorem putUint64_length (w : Nat) : (putUint64 w).length = 8 := rfl

theorem consumeUint32_putUint32 (w : Nat) (hw : w < 2 ^ 32)
    (r : List Nat) : consumeUint32 (putUint32 w ++ r) = (r, w) := by
  unfold consumeUint32 putUint32
  simp only [List.cons_append, List.nil_append, List.getD_cons_succ,
    List.getD_cons_zero, List.drop_succ_cons, List.drop_zero]
  refine Prod.ext rfl ?_
  show ((w % 256 ||| w / 2 ^ 8 % 256 * 2 ^ 8) ||| w / 2 ^ 16 % 256 * 2 ^ 16)
      ||| w / 2 ^ 24 % 256 * 2 ^ 24 = w
  rw [lor_mul_pow _ _ 8 (by omega), lor_mul_pow _ _ 16 (by omega),
    lor_mul_pow _ _ 24 (by omega)]
  omega

theorem consumeUint64_putUint64 (w : Nat) (hw : w < 2 ^ 64)
    (r : List Nat) : consumeUint64 (putUint64 w ++ r) = (r, w) := by
  unfold consumeUint64 putUint64
  simp only [List.cons_append, List.nil_append, List.getD_cons_succ,
    List.getD_cons_zero, List.drop_succ_cons, List.drop_zero]
  refine Prod.ext rfl ?_
  show ((((((w % 256 ||| w / 2 ^ 8 % 256 * 2 ^ 8) |||
      w / 2 ^ 16 % 256 * 2 ^ 16) ||| w / 2 ^ 24 % 256 * 2 ^ 24) |||
      w / 2 ^ 32 % 256 * 2 ^ 32) ||| w / 2 ^ 40 % 256 * 2 ^ 40) |||
      w / 2 ^ 48 % 256 * 2 ^ 48) ||| w / 2 ^ 56 % 256 * 2 ^ 56 = w
  rw [lor_mul_pow _ _ 8 (by omega), lor_mul_pow _ _ 16 (by omega),
    lor_mul_pow _ _ 24 (by omega), lor_mul_pow _ _ 32 (by omega),
    lor_mul_pow _ _ 40 (by omega), lor_mul_pow _ _ 48 (by omega),
    lor_mul_pow _ _ 56 (by omega)]
  omega

/-- The big-endian digits of the spec agree with putUint32. -/
theorem beBytes_four (w : Nat) : beBytes 4 w = putUint32 w := by
  show [w / 256 / 256 / 256 % 256, w / 256 / 256 % 256, w / 256 % 256,
    w % 256] = _
  unfold putUint32
  norm_num [Nat.div_div_eq_div_mul]

/-- The big-endian digits of the spec agree with putUint64. -/
theorem beBytes_eight (w : Nat) : beBytes 8 w = putUint64 w := by
  show [w / 256 / 256 / 256 / 256 / 256 / 256 / 256 % 256,
    w / 256 / 256 / 256 / 256 / 256 / 256 % 256,
    w / 256 / 256 / 256 / 256 / 256 % 256,
    w / 256 / 256 / 256 / 256 % 256, w / 256 / 256 / 256 % 256,
    w / 256 / 256 % 256, w / 256 % 256, w % 256] = _
  unfold putUint64
  norm_num [Nat.div_div_eq_div_mul]

theorem consumeUint64_putUint64_nil (w : Nat) (hw : w < 2 ^ 64) :
    consumeUint64 (putUint64 w) = ([], w) := by
  have := consumeUint64_putUint64 w hw []
  rwa [List.append_nil] at this

/-! ## Round trip of the packed total-length field -/

/-- For a 32-bit-word variant that has absorbed `T` total bytes, decoding
the packed length field recovers nl, nh and the pending count exactly (no
bound on `T` is needed: the counters themselves are the low 64 bits of the
bit count and survive the packing). -/
theorem pack32_roundtrip (T : Nat) :
    lenUnpack32 (lenPack32 (8 * T % 2 ^ 32) (8 * T % 2 ^ 64 / 2 ^ 32)) =
      (8 * T % 2 ^ 32, 8 * T % 2 ^ 64 / 2 ^ 32, T % 64) := by
  unfold lenPack32 lenUnpack32
  rw [lor_mul_pow _ _ 29 (by omega)]
  refine Prod.ext ?_ (Prod.ext ?_ ?_) <;> simp only <;> omega

/-- For a 64-bit-word variant that has absorbed `T < 2 ^ 64` total bytes,
decoding the packed length field recovers nl, nh and the pending count.
The packing `nl>>3 | nh<<61` keeps only the low three bits of nh, so the
bound on `T` is essential. -/
theorem pack64_roundtrip (T : Nat) (hT : T < 2 ^ 64) :
    lenUnpack64 (lenPack64 (8 * T % 2 ^ 64) (8 * T % 2 ^ 128 / 2 ^ 64)) =
      (8 * T % 2 ^ 64, 8 * T % 2 ^ 128 / 2 ^ 64, T % 128) := by
  unfold lenPack64 lenUnpack64
  have hsplit : 8 * T % 2 ^ 128 / 2 ^ 64 * 2 ^ 61 % 2 ^ 64 =
      8 * T % 2 ^ 128 / 2 ^ 64 % 8 * 2 ^ 61 := by
    generalize 8 * T % 2 ^ 128 / 2 ^ 64 = nh
    omega
  rw [hsplit, lor_mul_pow _ _ 61 (by omega)]
  refine Prod.ext ?_ (Prod.ext ?_ ?_) <;> simp only <;> omega

/-! ## Decoding a well-shaped snapshot -/

theorem sha1_unmarshal_form (d₀ : Sha1Ctx) (w0 w1 w2 w3 w4 : Nat)
    (h0 : w0 < 2 ^ 32) (h1 : w1 < 2 ^ 32) (h2 : w2 < 2 ^ 32)
    (h3 : w3 < 2 ^ 32) (h4 : w4 < 2 ^ 32)
    (buf : List Nat) (hbuf : buf.length = 64) (n : Nat) (hn : n < 2 ^ 64) :
    sha1UnmarshalBinary d₀
      (sha1Magic ++ (putUint32 w0 ++ (putUint32 w1 ++ (putUint32 w2 ++
        (putUint32 w3 ++ (putUint32 w4 ++ (buf ++ putUint64 n))))))) =
      ({ h := ⟨w0, w1, w2, w3, w4⟩, nl := (lenUnpack32 n).1,
         nh := (lenUnpack32 n).2.1, x := buf,
         nx := (lenUnpack32 n).2.2 }, none) := by
  have hlen : (sha1Magic ++ (putUint32 w0 ++ (putUint32 w1 ++
      (putUint32 w2 ++ (putUint32 w3 ++ (putUint32 w4 ++
      (buf ++ putUint64 n))))))).length = 96 := by
    simp [List.length_append, putUint32_length, putUint64_length, hbuf,
      sha1Magic]
  simp only [sha1UnmarshalBinary, List.take_left, hlen]
  rw [if_neg (by simp [sha1Magic]), if_neg (by simp [sha1MarshaledSize,
    sha1Magic])]
  simp only [List.drop_left, consumeUint32_putUint32 w0 h0,
    consumeUint32_putUint32 w1 h1, consumeUint32_putUint32 w2 h2,
    consumeUint32_putUint32 w3 h3, consumeUint32_putUint32 w4 h4,
    List.take_left' hbuf, List.drop_left' hbuf,
    consumeUint64_putUint64_nil n hn]

/-! ## Invariant preservation for SHA-1 -/

theorem sha1Update_good (compress : Words5 → List Nat → Words5)
    (hc : ∀ w b, Bounded5 w → Bounded5 (compress w b))
    (d : Sha1Ctx) (T : Nat) (p : List Nat) (hd : GoodSha1 d T) :
    GoodSha1 (sha1Update compress d p) (T + p.length) := by
  obtain ⟨hnl, hnh, hnx, hxlen, hxform, hb⟩ := hd
  have hx64 : d.nx ≤ 64 := by omega
  have hpend : (d.x.take d.nx ++ p).length = d.nx + p.length := by
    simp [List.length_take, hxlen]
    omega
  have hBpos : (0 : Nat) < 64 := by norm_num
  have habs : (absorb 64 compress d.h (d.x.take d.nx ++ p)).2.length =
      (d.nx + p.length) % 64 := by
    rw [absorb_len 64 compress hBpos (d.x.take d.nx ++ p).length d.h
      (d.x.take d.nx ++ p) (le_refl _), hpend]
  have hbits : (d.nh * 2 ^ 32 + d.nl + 8 * p.length) % 2 ^ 64 =
      8 * (T + p.length) % 2 ^ 64 := by
    rw [hnl, hnh]
    omega
  unfold sha1Update
  refine ⟨?_, ?_, ?_, ?_, ?_, ?_⟩
  · show (d.nh * 2 ^ 32 + d.nl + 8 * p.length) % 2 ^ 64 % 2 ^ 32 = _
    rw [hbits]
    omega
  · show (d.nh * 2 ^ 32 + d.nl + 8 * p.length) % 2 ^ 64 / 2 ^ 32 = _
    rw [hbits]
  · show (absorb 64 compress d.h (d.x.take d.nx ++ p)).2.length = _
    rw [habs]
    omega
  · show ((absorb 64 compress d.h (d.x.take d.nx ++ p)).2 ++
      List.replicate (64 - (absorb 64 compress d.h
        (d.x.take d.nx ++ p)).2.length) 0).length = 64
    simp only [List.length_append, List.length_replicate]
    omega
  · show (absorb 64 compress d.h (d.x.take d.nx ++ p)).2 ++
      List.replicate (64 - (absorb 64 compress d.h
        (d.x.take d.nx ++ p)).2.length) 0 = _
    rw [List.take_left]
  · show Bounded5 (absorb 64 compress d.h (d.x.take d.nx ++ p)).1
    exact absorb_pres 64 compress hBpos Bounded5 hc
      (d.x.take d.nx ++ p).length d.h _ (le_refl _) hb

theorem sha1Reset_good (iv : Words5) (hiv : Bounded5 iv) :
    GoodSha1 (sha1Reset iv) 0 := by
  refine ⟨rfl, rfl, rfl, by simp [sha1Reset], ?_, hiv⟩
  simp [sha1Reset]

theorem sha1WriteSt_good (compress : Words5 → List Nat → Words5)
    (hc : ∀ w b, Bounded5 w → Bounded5 (compress w b))
    (d : Sha1Ctx) (T : Nat) (p : List Nat) (hd : GoodSha1 d T) :
    GoodSha1 (sha1WriteSt compress d p) (T + p.length) := by
  unfold sha1WriteSt
  by_cases hp : 0 < p.length
  · rw [if_pos hp]
    exact sha1Update_good compress hc d T p hd
  · rw [if_neg hp]
    have : p.length = 0 := by omega
    rw [this]
    exact hd

theorem sha1Writes_good (compress : Words5 → List Nat → Words5)
    (hc : ∀ w b, Bounded5 w → Bounded5 (compress w b)) (iv : Words5)
    (hiv : Bounded5 iv) (ms : List (List Nat)) :
    GoodSha1 (sha1Writes compress iv ms) (totalLen ms) := by
  suffices hgen : ∀ (ms : List (List Nat)) (d : Sha1Ctx) (T : Nat),
      GoodSha1 d T →
      GoodSha1 (ms.foldl (sha1WriteSt compress) d) (T + totalLen ms) by
    have := hgen ms (sha1Reset iv) 0 (sha1Reset_good iv hiv)
    simpa [sha1Writes] using this
  intro ms
  induction ms with
  | nil =>
    intro d T hd
    simpa [totalLen] using hd
  | cons m rest ih =>
    intro d T hd
    have h1 := sha1WriteSt_good compress hc d T m hd
    have h2 := ih (sha1WriteSt compress d m) (T + m.length) h1
    have harith : T + m.length + totalLen rest = T + totalLen (m :: rest) := by
      simp [totalLen]
      omega
    rw [harith] at h2
    exact h2

/-- The marshaled bytes of a SHA-1 context, regrouped for decoding. -/
theorem sha1_marshal_eq (d : Sha1Ctx) :
    (sha1MarshalBinary d).1 =
      sha1Magic ++ (putUint32 d.h.w0 ++ (putUint32 d.h.w1 ++
        (putUint32 d.h.w2 ++ (putUint32 d.h.w3 ++ (putUint32 d.h.w4 ++
        ((d.x.take d.nx ++ List.replicate (64 - d.nx) 0) ++
          putUint64 (lenPack32 d.nl d.nh))))))) := by
  simp [sha1MarshalBinary, appendUint32, appendUint64, List.append_assoc]

/-- Round trip for a well-formed SHA-1 context: unmarshal of marshal
restores every field, whatever the receiver was. -/
theorem sha1_roundtrip_good (d₀ d : Sha1Ctx) (T : Nat)
    (hd : GoodSha1 d T) :
    sha1UnmarshalBinary d₀ (sha1MarshalBinary d).1 = (d, none) := by
  obtain ⟨hnl, hnh, hnx, hxlen, hxform, hb0, hb1, hb2, hb3, hb4⟩ := hd
  have hbuflen : (d.x.take d.nx ++ List.replicate (64 - d.nx) 0).length =
      64 := by
    simp [List.length_take, hxlen]
    omega
  have hnlt : lenPack32 d.nl d.nh < 2 ^ 64 := by
    unfold lenPack32
    rw [lor_mul_pow _ _ 29 (by omega)]
    have h1 : d.nl < 2 ^ 32 := by omega
    have h2 : d.nh < 2 ^ 32 := by
      rw [hnh]
      omega
    omega
  rw [sha1_marshal_eq d,
    sha1_unmarshal_form d₀ d.h.w0 d.h.w1 d.h.w2 d.h.w3 d.h.w4
      hb0 hb1 hb2 hb3 hb4 _ hbuflen (lenPack32 d.nl d.nh) hnlt]
  have hpack : lenUnpack32 (lenPack32 d.nl d.nh) = (d.nl, d.nh, d.nx) := by
    rw [hnl, hnh, pack32_roundtrip T, ← hnl, ← hnh, ← hnx]
  refine Prod.ext ?_ rfl
  show Sha1Ctx.mk ⟨d.h.w0, d.h.w1, d.h.w2, d.h.w3, d.h.w4⟩
      (lenUnpack32 (lenPack32 d.nl d.nh)).1
      (lenUnpack32 (lenPack32 d.nl d.nh)).2.1
      (d.x.take d.nx ++ List.replicate (64 - d.nx) 0)
      (lenUnpack32 (lenPack32 d.nl d.nh)).2.2 = d
  rw [hpack, ← hxform]

/-! ## Splitting invariance of Update and Write -/

theorem sha1Update_append (compress : Words5 → List Nat → Words5)
    (d : Sha1Ctx) (p q : List Nat) :
    sha1Update compress (sha1Update compress d p) q =
      sha1Update compress d (p ++ q) := by
  have habs := absorb_append 64 compress (by norm_num) q
    (d.x.take d.nx ++ p).length d.h (d.x.take d.nx ++ p) (le_refl _)
  rw [List.append_assoc] at habs
  simp only [sha1Update]
  simp only [List.take_left]
  rw [← habs]
  simp only [Sha1Ctx.mk.injEq, List.length_append]
  exact ⟨trivial, by omega, by omega, trivial, trivial⟩

theorem sha256Update_append (compress : Words8 → List Nat → Words8)
    (d : Sha256Ctx) (p q : List Nat) :
    sha256Update compress (sha256Update compress d p) q =
      sha256Update compress d (p ++ q) := by
  have habs := absorb_append 64 compress (by norm_num) q
    (d.x.take d.nx ++ p).length d.h (d.x.take d.nx ++ p) (le_refl _)
  rw [List.append_assoc] at habs
  simp only [sha256Update]
  simp only [List.take_left]
  rw [← habs]
  simp only [Sha256Ctx.mk.injEq, List.length_append]
  exact ⟨trivial, by omega, by omega, trivial, trivial⟩

theorem sha512Update_append (compress : Words8 → List Nat → Words8)
    (d : Sha512Ctx) (p q : List Nat) :
    sha512Update compress (sha512Update compress d p) q =
      sha512Update compress d (p ++ q) := by
  have habs := absorb_append 128 compress (by norm_num) q
    (d.x.take d.nx ++ p).length d.h (d.x.take d.nx ++ p) (le_refl _)
  rw [List.append_assoc] at habs
  simp only [sha512Update]
  simp only [List.take_left]
  rw [← habs]
  simp only [Sha512Ctx.mk.injEq, List.length_append]
  exact ⟨trivial, by omega, by omega, trivial, trivial⟩

theorem sha1WriteSt_append (compress : Words5 → List Nat → Words5)
    (d : Sha1Ctx) (p q : List Nat) :
    sha1WriteSt compress (sha1WriteSt compress d p) q =
      sha1WriteSt compress d (p ++ q) := by
  unfold sha1WriteSt
  rcases p with _ | ⟨a, p'⟩
  · simp
  · rcases q with _ | ⟨b, q'⟩
    · simp
    · rw [if_pos (by simp), if_pos (by simp), if_pos (by simp)]
      exact sha1Update_append compress d (a :: p') (b :: q')

theorem sha256WriteSt_append (compress : Words8 → List Nat → Words8)
    (d : Sha256Ctx) (p q : List Nat) :
    sha256WriteSt compress (sha256WriteSt compress d p) q =
      sha256WriteSt compress d (p ++ q) := by
  unfold sha256WriteSt
  rcases p with _ | ⟨a, p'⟩
  · simp
  · rcases q with _ | ⟨b, q'⟩
    · simp
    · rw [if_pos (by simp), if_pos (by simp), if_pos (by simp)]
      exact sha256Update_append compress d (a :: p') (b :: q')

theorem sha512WriteSt_append (compress : Words8 → List Nat → Words8)
    (d : Sha512Ctx) (p q : List Nat) :
    sha512WriteSt compress (sha512WriteSt compress d p) q =
      sha512WriteSt compress d (p ++ q) := by
  unfold sha512WriteSt
  rcases p with _ | ⟨a, p'⟩
  · simp
  · rcases q with _ | ⟨b, q'⟩
    · simp
    · rw [if_pos (by simp), if_pos (by simp), if_pos (by simp)]
      exact sha512Update_append compress d (a :: p') (b :: q')

/-! ## Invariant preservation for SHA-384 / SHA-512 -/

theorem sha512Update_good (compress : Words8 → List Nat → Words8)
    (hc : ∀ w b, Bounded8x64 w → Bounded8x64 (compress w b))
    (d : Sha512Ctx) (T : Nat) (p : List Nat) (hd : GoodSha512 d T) :
    GoodSha512 (sha512Update compress d p) (T + p.length) := by
  obtain ⟨hnl, hnh, hnx, hxlen, hxform, hb⟩ := hd
  have hx128 : d.nx ≤ 128 := by omega
  have hpend : (d.x.take d.nx ++ p).length = d.nx + p.length := by
    simp [List.length_take, hxlen]
    omega
  have hBpos : (0 : Nat) < 128 := by norm_num
  have habs : (absorb 128 compress d.h (d.x.take d.nx ++ p)).2.length =
      (d.nx + p.length) % 128 := by
    rw [absorb_len 128 compress hBpos (d.x.take d.nx ++ p).length d.h
      (d.x.take d.nx ++ p) (le_refl _), hpend]
  have hbits : (d.nh * 2 ^ 64 + d.nl + 8 * p.length) % 2 ^ 128 =
      8 * (T + p.length) % 2 ^ 128 := by
    rw [hnl, hnh]
    omega
  unfold sha512Update
  refine ⟨?_, ?_, ?_, ?_, ?_, ?_⟩
  · show (d.nh * 2 ^ 64 + d.nl + 8 * p.length) % 2 ^ 128 % 2 ^ 64 = _
    rw [hbits]
    omega
  · show (d.nh * 2 ^ 64 + d.nl + 8 * p.length) % 2 ^ 128 / 2 ^ 64 = _
    rw [hbits]
  · show (absorb 128 compress d.h (d.x.take d.nx ++ p)).2.length = _
    rw [habs]
    omega
  · show ((absorb 128 compress d.h (d.x.take d.nx ++ p)).2 ++
      List.replicate (128 - (absorb 128 compress d.h
        (d.x.take d.nx ++ p)).2.length) 0).length = 128
    simp only [List.length_append, List.length_replicate]
    omega
  · show (absorb 128 compress d.h (d.x.take d.nx ++ p)).2 ++
      List.replicate (128 - (absorb 128 compress d.h
        (d.x.take d.nx ++ p)).2.length) 0 = _
    rw [List.take_left]
  · show Bounded8x64 (absorb 128 compress d.h (d.x.take d.nx ++ p)).1
    exact absorb_pres 128 compress hBpos Bounded8x64 hc
      (d.x.take d.nx ++ p).length d.h _ (le_refl _) hb

theorem sha512Reset_good (iv : Words8) (hiv : Bounded8x64 iv) :
    GoodSha512 (sha512Reset iv) 0 := by
  refine ⟨rfl, rfl, rfl, by simp [sha512Reset], ?_, hiv⟩
  simp [sha512Reset]

theorem sha512WriteSt_good (compress : Words8 → List Nat → Words8)
    (hc : ∀ w b, Bounded8x64 w → Bounded8x64 (compress w b))
    (d : Sha512Ctx) (T : Nat) (p : List Nat) (hd : GoodSha512 d T) :
    GoodSha512 (sha512WriteSt compress d p) (T + p.length) := by
  unfold sha512WriteSt
  by_cases hp : 0 < p.length
  · rw [if_pos hp]
    exact sha512Update_good compress hc d T p hd
  · rw [if_neg hp]
    have : p.length = 0 := by omega
    rw [this]
    exact hd

theorem sha512Writes_good (compress : Words8 → List Nat → Words8)
    (hc : ∀ w b, Bounded8x64 w → Bounded8x64 (compress w b)) (iv : Words8)
    (hiv : Bounded8x64 iv) (ms : List (List Nat)) :
    GoodSha512 (sha512Writes compress iv ms) (totalLen ms) := by
  suffices hgen : ∀ (ms : List (List Nat)) (d : Sha512Ctx) (T : Nat),
      GoodSha512 d T →
      GoodSha512 (ms.foldl (sha512WriteSt compress) d) (T + totalLen ms) by
    have := hgen ms (sha512Reset iv) 0 (sha512Reset_good iv hiv)
    simpa [sha512Writes] using this
  intro ms
  induction ms with
  | nil =>
    intro d T hd
    simpa [totalLen] using hd
  | cons m rest ih =>
    intro d T hd
    have h1 := sha512WriteSt_good compress hc d T m hd
    have h2 := ih (sha512WriteSt compress d m) (T + m.length) h1
    have harith : T + m.length + totalLen rest = T + totalLen (m :: rest) := by
      simp [totalLen]
      omega
    rw [harith] at h2
    exact h2

theorem sha384_unmarshal_form (d₀ : Sha512Ctx)
    (w0 w1 w2 w3 w4 w5 w6 w7 : Nat)
    (h0 : w0 < 2 ^ 64) (h1 : w1 < 2 ^ 64) (h2 : w2 < 2 ^ 64)
    (h3 : w3 < 2 ^ 64) (h4 : w4 < 2 ^ 64) (h5 : w5 < 2 ^ 64)
    (h6 : w6 < 2 ^ 64) (h7 : w7 < 2 ^ 64)
    (buf : List Nat) (hbuf : buf.length = 128) (n : Nat) (hn : n < 2 ^ 64) :
    sha384UnmarshalBinary d₀
      (magic384 ++ (putUint64 w0 ++ (putUint64 w1 ++ (putUint64 w2 ++
        (putUint64 w3 ++ (putUint64 w4 ++ (putUint64 w5 ++ (putUint64 w6 ++
        (putUint64 w7 ++ (buf ++ putUint64 n)))))))))) =
      ({ h := ⟨w0, w1, w2, w3, w4, w5, w6, w7⟩, nl := (lenUnpack64 n).1,
         nh := (lenUnpack64 n).2.1, x := buf,
         nx := (lenUnpack64 n).2.2 }, none) := by
  have hlen : (magic384 ++ (putUint64 w0 ++ (putUint64 w1 ++
      (putUint64 w2 ++ (putUint64 w3 ++ (putUint64 w4 ++ (putUint64 w5 ++
      (putUint64 w6 ++ (putUint64 w7 ++
      (buf ++ putUint64 n)))))))))).length = 204 := by
    simp [List.length_append, putUint64_length, hbuf, magic384]
  simp only [sha384UnmarshalBinary, List.take_left, hlen]
  rw [if_neg (by simp [magic512]), if_neg (by simp [List.take_left]),
    if_neg (by simp [marshaledSize512, magic512])]
  simp only [show magic512.length = magic384.length from rfl,
    List.drop_left, consumeUint64_putUint64 w0 h0,
    consumeUint64_putUint64 w1 h1, consumeUint64_putUint64 w2 h2,
    consumeUint64_putUint64 w3 h3, consumeUint64_putUint64 w4 h4,
    consumeUint64_putUint64 w5 h5, consumeUint64_putUint64 w6 h6,
    consumeUint64_putUint64 w7 h7,
    List.take_left' hbuf, List.drop_left' hbuf,
    consumeUint64_putUint64_nil n hn]

theorem sha512_unmarshal_form (d₀ : Sha512Ctx)
    (w0 w1 w2 w3 w4 w5 w6 w7 : Nat)
    (h0 : w0 < 2 ^ 64) (h1 : w1 < 2 ^ 64) (h2 : w2 < 2 ^ 64)
    (h3 : w3 < 2 ^ 64) (h4 : w4 < 2 ^ 64) (h5 : w5 < 2 ^ 64)
    (h6 : w6 < 2 ^ 64) (h7 : w7 < 2 ^ 64)
    (buf : List Nat) (hbuf : buf.length = 128) (n : Nat) (hn : n < 2 ^ 64) :
    sha512UnmarshalBinary d₀
      (magic512 ++ (putUint64 w0 ++ (putUint64 w1 ++ (putUint64 w2 ++
        (putUint64 w3 ++ (putUint64 w4 ++ (putUint64 w5 ++ (putUint64 w6 ++
        (putUint64 w7 ++ (buf ++ putUint64 n)))))))))) =
      ({ h := ⟨w0, w1, w2, w3, w4, w5, w6, w7⟩, nl := (lenUnpack64 n).1,
         nh := (lenUnpack64 n).2.1, x := buf,
         nx := (lenUnpack64 n).2.2 }, none) := by
  have hlen : (magic512 ++ (putUint64 w0 ++ (putUint64 w1 ++
      (putUint64 w2 ++ (putUint64 w3 ++ (putUint64 w4 ++ (putUint64 w5 ++
      (putUint64 w6 ++ (putUint64 w7 ++
      (buf ++ putUint64 n)))))))))).length = 204 := by
    simp [List.length_append, putUint64_length, hbuf, magic512]
  simp only [sha512UnmarshalBinary, List.take_left, hlen]
  rw [if_neg (by simp [magic512]), if_neg (by simp [List.take_left]),
    if_neg (by simp [marshaledSize512, magic512])]
  simp only [List.drop_left, consumeUint64_putUint64 w0 h0,
    consumeUint64_putUint64 w1 h1, consumeUint64_putUint64 w2 h2,
    consumeUint64_putUint64 w3 h3, consumeUint64_putUint64 w4 h4,
    consumeUint64_putUint64 w5 h5, consumeUint64_putUint64 w6 h6,
    consumeUint64_putUint64 w7 h7,
    List.take_left' hbuf, List.drop_left' hbuf,
    consumeUint64_putUint64_nil n hn]

theorem sha384_marshal_eq (d : Sha512Ctx) :
    (sha384MarshalBinary d).1 =
      magic384 ++ (putUint64 d.h.w0 ++ (putUint64 d.h.w1 ++
        (putUint64 d.h.w2 ++ (putUint64 d.h.w3 ++ (putUint64 d.h.w4 ++
        (putUint64 d.h.w5 ++ (putUint64 d.h.w6 ++ (putUint64 d.h.w7 ++
        ((d.x.take d.nx ++ List.replicate (128 - d.nx) 0) ++
          putUint64 (lenPack64 d.nl d.nh)))))))))) := by
  simp [sha384MarshalBinary, appendUint64, List.append_assoc]

theorem sha512_marshal_eq (d : Sha512Ctx) :
    (sha512MarshalBinary d).1 =
      magic512 ++ (putUint64 d.h.w0 ++ (putUint64 d.h.w1 ++
        (putUint64 d.h.w2 ++ (putUint64 d.h.w3 ++ (putUint64 d.h.w4 ++
        (putUint64 d.h.w5 ++ (putUint64 d.h.w6 ++ (putUint64 d.h.w7 ++
        ((d.x.take d.nx ++ List.replicate (128 - d.nx) 0) ++
          putUint64 (lenPack64 d.nl d.nh)))))))))) := by
  simp [sha512MarshalBinary, appendUint64, List.append_assoc]

theorem lenPack64_lt (nl nh : Nat) (hnl : nl < 2 ^ 64) :
    lenPack64 nl nh < 2 ^ 64 := by
  unfold lenPack64
  have hsplit : nh * 2 ^ 61 % 2 ^ 64 = nh % 8 * 2 ^ 61 := by
    generalize nh = m
    omega
  rw [hsplit, lor_mul_pow _ _ 61 (by omega)]
  omega

theorem sha384_roundtrip_good (d₀ d : Sha512Ctx) (T : Nat) (hT : T < 2 ^ 64)
    (hd : GoodSha512 d T) :
    sha384UnmarshalBinary d₀ (sha384MarshalBinary d).1 = (d, none) := by
  obtain ⟨hnl, hnh, hnx, hxlen, hxform,
    hb0, hb1, hb2, hb3, hb4, hb5, hb6, hb7⟩ := hd
  have hbuflen : (d.x.take d.nx ++ List.replicate (128 - d.nx) 0).length =
      128 := by
    simp [List.length_take, hxlen]
    omega
  have hnlt : lenPack64 d.nl d.nh < 2 ^ 64 :=
    lenPack64_lt d.nl d.nh (by omega)
  rw [sha384_marshal_eq d,
    sha384_unmarshal_form d₀ d.h.w0 d.h.w1 d.h.w2 d.h.w3 d.h.w4 d.h.w5
      d.h.w6 d.h.w7 hb0 hb1 hb2 hb3 hb4 hb5 hb6 hb7 _ hbuflen
      (lenPack64 d.nl d.nh) hnlt]
  have hpack : lenUnpack64 (lenPack64 d.nl d.nh) = (d.nl, d.nh, d.nx) := by
    rw [hnl, hnh, pack64_roundtrip T hT, ← hnl, ← hnh, ← hnx]
  refine Prod.ext ?_ rfl
  show Sha512Ctx.mk
      ⟨d.h.w0, d.h.w1, d.h.w2, d.h.w3, d.h.w4, d.h.w5, d.h.w6, d.h.w7⟩
      (lenUnpack64 (lenPack64 d.nl d.nh)).1
      (lenUnpack64 (lenPack64 d.nl d.nh)).2.1
      (d.x.take d.nx ++ List.replicate (128 - d.nx) 0)
      (lenUnpack64 (lenPack64 d.nl d.nh)).2.2 = d
  rw [hpack, ← hxform]

theorem sha512_roundtrip_good (d₀ d : Sha512Ctx) (T : Nat) (hT : T < 2 ^ 64)
    (hd : GoodSha512 d T) :
    sha512UnmarshalBinary d₀ (sha512MarshalBinary d).1 = (d, none) := by
  obtain ⟨hnl, hnh, hnx, hxlen, hxform,
    hb0, hb1, hb2, hb3, hb4, hb5, hb6, hb7⟩ := hd
  have hbuflen : (d.x.take d.nx ++ List.replicate (128 - d.nx) 0).length =
      128 := by
    simp [List.length_take, hxlen]
    omega
  have hnlt : lenPack64 d.nl d.nh < 2 ^ 64 :=
    lenPack64_lt d.nl d.nh (by omega)
  rw [sha512_marshal_eq d,
    sha512_unmarshal_form d₀ d.h.w0 d.h.w1 d.h.w2 d.h.w3 d.h.w4 d.h.w5
      d.h.w6 d.h.w7 hb0 hb1 hb2 hb3 hb4 hb5 hb6 hb7 _ hbuflen
      (lenPack64 d.nl d.nh) hnlt]
  have hpack : lenUnpack64 (lenPack64 d.nl d.nh) = (d.nl, d.nh, d.nx) := by
    rw [hnl, hnh, pack64_roundtrip T hT, ← hnl, ← hnh, ← hnx]
  refine Prod.ext ?_ rfl
  show Sha512Ctx.mk
      ⟨d.h.w0, d.h.w1, d.h.w2, d.h.w3, d.h.w4, d.h.w5, d.h.w6, d.h.w7⟩
      (lenUnpack64 (lenPack64 d.nl d.nh)).1
      (lenUnpack64 (lenPack64 d.nl d.nh)).2.1
      (d.x.take d.nx ++ List.replicate (128 - d.nx) 0)
      (lenUnpack64 (lenPack64 d.nl d.nh)).2.2 = d
  rw [hpack, ← hxform]

/-! ## Invariant preservation for SHA-224 / SHA-256 -/

theorem sha256Update_good (compress : Words8 → List Nat → Words8)
    (hc : ∀ w b, Bounded8x32 w → Bounded8x32 (compress w b))
    (d : Sha256Ctx) (T : Nat) (p : List Nat) (hd : GoodSha256 d T) :
    GoodSha256 (sha256Update compress d p) (T + p.length) := by
  obtain ⟨hnl, hnh, hnx, hxlen, hxform, hb⟩ := hd
  have hx64 : d.nx ≤ 64 := by omega
  have hpend : (d.x.take d.nx ++ p).length = d.nx + p.length := by
    simp [List.length_take, hxlen]
    omega
  have hBpos : (0 : Nat) < 64 := by norm_num
  have habs : (absorb 64 compress d.h (d.x.take d.nx ++ p)).2.length =
      (d.nx + p.length) % 64 := by
    rw [absorb_len 64 compress hBpos (d.x.take d.nx ++ p).length d.h
      (d.x.take d.nx ++ p) (le_refl _), hpend]
  have hbits : (d.nh * 2 ^ 32 + d.nl + 8 * p.length) % 2 ^ 64 =
      8 * (T + p.length) % 2 ^ 64 := by
    rw [hnl, hnh]
    omega
  unfold sha256Update
  refine ⟨?_, ?_, ?_, ?_, ?_, ?_⟩
  · show (d.nh * 2 ^ 32 + d.nl + 8 * p.length) % 2 ^ 64 % 2 ^ 32 = _
    rw [hbits]
    omega
  · show (d.nh * 2 ^ 32 + d.nl + 8 * p.length) % 2 ^ 64 / 2 ^ 32 = _
    rw [hbits]
  · show (absorb 64 compress d.h (d.x.take d.nx ++ p)).2.length = _
    rw [habs]
    omega
  · show ((absorb 64 compress d.h (d.x.take d.nx ++ p)).2 ++
      List.replicate (64 - (absorb 64 compress d.h
        (d.x.take d.nx ++ p)).2.length) 0).length = 64
    simp only [List.length_append, List.length_replicate]
    omega
  · show (absorb 64 compress d.h (d.x.take d.nx ++ p)).2 ++
      List.replicate (64 - (absorb 64 compress d.h
        (d.x.take d.nx ++ p)).2.length) 0 = _
    rw [List.take_left]
  · show Bounded8x32 (absorb 64 compress d.h (d.x.take d.nx ++ p)).1
    exact absorb_pres 64 compress hBpos Bounded8x32 hc
      (d.x.take d.nx ++ p).length d.h _ (le_refl _) hb

theorem sha256Reset_good (iv : Words8) (hiv : Bounded8x32 iv) :
    GoodSha256 (sha256Reset iv) 0 := by
  refine ⟨rfl, rfl, rfl, by simp [sha256Reset], ?_, hiv⟩
  simp [sha256Reset]

theorem sha256WriteSt_good (compress : Words8 → List Nat → Words8)
    (hc : ∀ w b, Bounded8x32 w → Bounded8x32 (compress w b))
    (d : Sha256Ctx) (T : Nat) (p : List Nat) (hd : GoodSha256 d T) :
    GoodSha256 (sha256WriteSt compress d p) (T + p.length) := by
  unfold sha256WriteSt
  by_cases hp : 0 < p.length
  · rw [if_pos hp]
    exact sha256Update_good compress hc d T p hd
  · rw [if_neg hp]
    have : p.length = 0 := by omega
    rw [this]
    exact hd

theorem sha256Writes_good (compress : Words8 → List Nat → Words8)
    (hc : ∀ w b, Bounded8x32 w → Bounded8x32 (compress w b)) (iv : Words8)
    (hiv : Bounded8x32 iv) (ms : List (List Nat)) :
    GoodSha256 (sha256Writes compress iv ms) (totalLen ms) := by
  suffices hgen : ∀ (ms : List (List Nat)) (d : Sha256Ctx) (T : Nat),
      GoodSha256 d T →
      GoodSha256 (ms.foldl (sha256WriteSt compress) d) (T + totalLen ms) by
    have := hgen ms (sha256Reset iv) 0 (sha256Reset_good iv hiv)
    simpa [sha256Writes] using this
  intro ms
  induction ms with
  | nil =>
    intro d T hd
    simpa [totalLen] using hd
  | cons m rest ih =>
    intro d T hd
    have h1 := sha256WriteSt_good compress hc d T m hd
    have h2 := ih (sha256WriteSt compress d m) (T + m.length) h1
    have harith : T + m.length + totalLen rest = T + totalLen (m :: rest) := by
      simp [totalLen]
      omega
    rw [harith] at h2
    exact h2

theorem sha224_unmarshal_form (d₀ : Sha256Ctx)
    (w0 w1 w2 w3 w4 w5 w6 w7 : Nat)
    (h0 : w0 < 2 ^ 32) (h1 : w1 < 2 ^ 32) (h2 : w2 < 2 ^ 32)
    (h3 : w3 < 2 ^ 32) (h4 : w4 < 2 ^ 32) (h5 : w5 < 2 ^ 32)
    (h6 : w6 < 2 ^ 32) (h7 : w7 < 2 ^ 32)
    (buf : List Nat) (hbuf : buf.length = 64) (n : Nat) (hn : n < 2 ^ 64) :
    sha224UnmarshalBinary d₀
      (magic224 ++ (putUint32 w0 ++ (putUint32 w1 ++ (putUint32 w2 ++
        (putUint32 w3 ++ (putUint32 w4 ++ (putUint32 w5 ++ (putUint32 w6 ++
        (putUint32 w7 ++ (buf ++ putUint64 n)))))))))) =
      ({ h := ⟨w0, w1, w2, w3, w4, w5, w6, w7⟩, nl := (lenUnpack32 n).1,
         nh := (lenUnpack32 n).2.1, x := buf,
         nx := (lenUnpack32 n).2.2 }, none) := by
  have hlen : (magic224 ++ (putUint32 w0 ++ (putUint32 w1 ++
      (putUint32 w2 ++ (putUint32 w3 ++ (putUint32 w4 ++ (putUint32 w5 ++
      (putUint32 w6 ++ (putUint32 w7 ++
      (buf ++ putUint64 n)))))))))).length = 108 := by
    simp [List.length_append, putUint32_length, putUint64_length, hbuf,
      magic224]
  simp only [sha224UnmarshalBinary, List.take_left, hlen]
  rw [if_neg (by simp [magic224]), if_neg (by simp [marshaledSize256,
    magic256])]
  simp only [List.drop_left, consumeUint32_putUint32 w0 h0,
    consumeUint32_putUint32 w1 h1, consumeUint32_putUint32 w2 h2,
    consumeUint32_putUint32 w3 h3, consumeUint32_putUint32 w4 h4,
    consumeUint32_putUint32 w5 h5, consumeUint32_putUint32 w6 h6,
    consumeUint32_putUint32 w7 h7,
    List.take_left' hbuf, List.drop_left' hbuf,
    consumeUint64_putUint64_nil n hn]

theorem sha256_unmarshal_form (d₀ : Sha256Ctx)
    (w0 w1 w2 w3 w4 w5 w6 w7 : Nat)
    (h0 : w0 < 2 ^ 32) (h1 : w1 < 2 ^ 32) (h2 : w2 < 2 ^ 32)
    (h3 : w3 < 2 ^ 32) (h4 : w4 < 2 ^ 32) (h5 : w5 < 2 ^ 32)
    (h6 : w6 < 2 ^ 32) (h7 : w7 < 2 ^ 32)
    (buf : List Nat) (hbuf : buf.length = 64) (n : Nat) (hn : n < 2 ^ 64) :
    sha256UnmarshalBinary d₀
      (magic256 ++ (putUint32 w0 ++ (putUint32 w1 ++ (putUint32 w2 ++
        (putUint32 w3 ++ (putUint32 w4 ++ (putUint32 w5 ++ (putUint32 w6 ++
        (putUint32 w7 ++ (buf ++ putUint64 n)))))))))) =
      ({ h := ⟨w0, w1, w2, w3, w4, w5, w6, w7⟩, nl := (lenUnpack32 n).1,
         nh := (lenUnpack32 n).2.1, x := buf,
         nx := (lenUnpack32 n).2.2 }, none) := by
  have hlen : (magic256 ++ (putUint32 w0 ++ (putUint32 w1 ++
      (putUint32 w2 ++ (putUint32 w3 ++ (putUint32 w4 ++ (putUint32 w5 ++
      (putUint32 w6 ++ (putUint32 w7 ++
      (buf ++ putUint64 n)))))))))).length = 108 := by
    simp [List.length_append, putUint32_length, putUint64_length, hbuf,
      magic256]
  simp only [sha256UnmarshalBinary, List.take_left, hlen]
  rw [if_neg (by simp [magic256]), if_neg (by simp [marshaledSize256,
    magic256])]
  simp only [List.drop_left, consumeUint32_putUint32 w0 h0,
    consumeUint32_putUint32 w1 h1, consumeUint32_putUint32 w2 h2,
    consumeUint32_putUint32 w3 h3, consumeUint32_putUint32 w4 h4,
    consumeUint32_putUint32 w5 h5, consumeUint32_putUint32 w6 h6,
    consumeUint32_putUint32 w7 h7,
    List.take_left' hbuf, List.drop_left' hbuf,
    consumeUint64_putUint64_nil n hn]

theorem sha224_marshal_eq (d : Sha256Ctx) :
    (sha224MarshalBinary d).1 =
      magic224 ++ (putUint32 d.h.w0 ++ (putUint32 d.h.w1 ++
        (putUint32 d.h.w2 ++ (putUint32 d.h.w3 ++ (putUint32 d.h.w4 ++
        (putUint32 d.h.w5 ++ (putUint32 d.h.w6 ++ (putUint32 d.h.w7 ++
        ((d.x.take d.nx ++ List.replicate (64 - d.nx) 0) ++
          putUint64 (lenPack32 d.nl d.nh)))))))))) := by
  simp [sha224MarshalBinary, appendUint32, appendUint64, List.append_assoc]

theorem sha256_marshal_eq (d : Sha256Ctx) :
    (sha256MarshalBinary d).1 =
      magic256 ++ (putUint32 d.h.w0 ++ (putUint32 d.h.w1 ++
        (putUint32 d.h.w2 ++ (putUint32 d.h.w3 ++ (putUint32 d.h.w4 ++
        (putUint32 d.h.w5 ++ (putUint32 d.h.w6 ++ (putUint32 d.h.w7 ++
        ((d.x.take d.nx ++ List.replicate (64 - d.nx) 0) ++
          putUint64 (lenPack32 d.nl d.nh)))))))))) := by
  simp [sha256MarshalBinary, appendUint32, appendUint64, List.append_assoc]

theorem sha224_roundtrip_good (d₀ d : Sha256Ctx) (T : Nat)
    (hd : GoodSha256 d T) :
    sha224UnmarshalBinary d₀ (sha224MarshalBinary d).1 = (d, none) := by
  obtain ⟨hnl, hnh, hnx, hxlen, hxform,
    hb0, hb1, hb2, hb3, hb4, hb5, hb6, hb7⟩ := hd
  have hbuflen : (d.x.take d.nx ++ List.replicate (64 - d.nx) 0).length =
      64 := by
    simp [List.length_take, hxlen]
    omega
  have hnlt : lenPack32 d.nl d.nh < 2 ^ 64 := by
    unfold lenPack32
    rw [lor_mul_pow _ _ 29 (by omega)]
    have h1 : d.nl < 2 ^ 32 := by omega
    have h2 : d.nh < 2 ^ 32 := by
      rw [hnh]
      omega
    omega
  rw [sha224_marshal_eq d,
    sha224_unmarshal_form d₀ d.h.w0 d.h.w1 d.h.w2 d.h.w3 d.h.w4 d.h.w5
      d.h.w6 d.h.w7 hb0 hb1 hb2 hb3 hb4 hb5 hb6 hb7 _ hbuflen
      (lenPack32 d.nl d.nh) hnlt]
  have hpack : lenUnpack32 (lenPack32 d.nl d.nh) = (d.nl, d.nh, d.nx) := by
    rw [hnl, hnh, pack32_roundtrip T, ← hnl, ← hnh, ← hnx]
  refine Prod.ext ?_ rfl
  show Sha256Ctx.mk
      ⟨d.h.w0, d.h.w1, d.h.w2, d.h.w3, d.h.w4, d.h.w5, d.h.w6, d.h.w7⟩
      (lenUnpack32 (lenPack32 d.nl d.nh)).1
      (lenUnpack32 (lenPack32 d.nl d.nh)).2.1
      (d.x.take d.nx ++ List.replicate (64 - d.nx) 0)
      (lenUnpack32 (lenPack32 d.nl d.nh)).2.2 = d
  rw [hpack, ← hxform]

theorem sha256_roundtrip_good (d₀ d : Sha256Ctx) (T : Nat)
    (hd : GoodSha256 d T) :
    sha256UnmarshalBinary d₀ (sha256MarshalBinary d).1 = (d, none) := by
  obtain ⟨hnl, hnh, hnx, hxlen, hxform,
    hb0, hb1, hb2, hb3, hb4, hb5, hb6, hb7⟩ := hd
  have hbuflen : (d.x.take d.nx ++ List.replicate (64 - d.nx) 0).length =
      64 := by
    simp [List.length_take, hxlen]
    omega
  have hnlt : lenPack32 d.nl d.nh < 2 ^ 64 := by
    unfold lenPack32
    rw [lor_mul_pow _ _ 29 (by omega)]
    have h1 : d.nl < 2 ^ 32 := by omega
    have h2 : d.nh < 2 ^ 32 := by
      rw [hnh]
      omega
    omega
  rw [sha256_marshal_eq d,
    sha256_unmarshal_form d₀ d.h.w0 d.h.w1 d.h.w2 d.h.w3 d.h.w4 d.h.w5
      d.h.w6 d.h.w7 hb0 hb1 hb2 hb3 hb4 hb5 hb6 hb7 _ hbuflen
      (lenPack32 d.nl d.nh) hnlt]
  have hpack : lenUnpack32 (lenPack32 d.nl d.nh) = (d.nl, d.nh, d.nx) := by
    rw [hnl, hnh, pack32_roundtrip T, ← hnl, ← hnh, ← hnx]
  refine Prod.ext ?_ rfl
  show Sha256Ctx.mk
      ⟨d.h.w0, d.h.w1, d.h.w2, d.h.w3, d.h.w4, d.h.w5, d.h.w6, d.h.w7⟩
      (lenUnpack32 (lenPack32 d.nl d.nh)).1
      (lenUnpack32 (lenPack32 d.nl d.nh)).2.1
      (d.x.take d.nx ++ List.replicate (64 - d.nx) 0)
      (lenUnpack32 (lenPack32 d.nl d.nh)).2.2 = d
  rw [hpack, ← hxform]

/-! # Claim theorems -/

/-- C5: Sum never mutates the receiver: the sum methods finalize a value
copy of the context, so the returned context is the receiver itself, two
consecutive Sum calls append the same digest bytes to the same prefix, and
a Write after a Sum starts from exactly the pre-Sum state.  The three
conjunct groups cover the three context shapes; the SHA-224 and SHA-384
adapters share the sha256Sum / sha512Sum bodies of their families. -/
theorem claim_c5_sum_no_mutation
    (f1 : Sha1Ctx → List Nat) (f2 : Sha256Ctx → List Nat)
    (f5 : Sha512Ctx → List Nat)
    (c5 : Words5 → List Nat → Words5) (c8 c8x : Words8 → List Nat → Words8)
    (d1 : Sha1Ctx) (d2 : Sha256Ctx) (d5 : Sha512Ctx)
    (dst p : List Nat) :
    ((sha1Sum f1 d1 dst).1 = d1 ∧
      (sha1Sum f1 (sha1Sum f1 d1 dst).1 dst).2 = (sha1Sum f1 d1 dst).2 ∧
      sha1WriteSt c5 (sha1Sum f1 d1 dst).1 p = sha1WriteSt c5 d1 p) ∧
    ((sha256Sum f2 d2 dst).1 = d2 ∧
      (sha256Sum f2 (sha256Sum f2 d2 dst).1 dst).2 = (sha256Sum f2 d2 dst).2 ∧
      sha256WriteSt c8 (sha256Sum f2 d2 dst).1 p = sha256WriteSt c8 d2 p) ∧
    ((sha512Sum f5 d5 dst).1 = d5 ∧
      (sha512Sum f5 (sha512Sum f5 d5 dst).1 dst).2 = (sha512Sum f5 d5 dst).2 ∧
      sha512WriteSt c8x (sha512Sum f5 d5 dst).1 p = sha512WriteSt c8x d5 p) :=
  ⟨⟨rfl, rfl, rfl⟩, ⟨rfl, rfl, rfl⟩, ⟨rfl, rfl, rfl⟩⟩

/-- C6: incremental hashing is splitting-invariant: writing m1 then m2 on a
fresh context and taking Sum gives the same digest as one Write of the
concatenation, for every compression function, initial chaining values and
finalization function.  The three conjuncts cover the three context shapes
(SHA-1; SHA-224/256; SHA-384/512, which share Write and sum bodies). -/
theorem claim_c6_incremental_equivalence
    (c5 : Words5 → List Nat → Words5) (c8 c8x : Words8 → List Nat → Words8)
    (iv5 : Words5) (iv8 iv8x : Words8)
    (f1 : Sha1Ctx → List Nat) (f2 : Sha256Ctx → List Nat)
    (f5 : Sha512Ctx → List Nat) (m1 m2 : List Nat) :
    sha1Sum f1 (sha1WriteSt c5 (sha1WriteSt c5 (sha1Reset iv5) m1) m2) [] =
      sha1Sum f1 (sha1WriteSt c5 (sha1Reset iv5) (m1 ++ m2)) [] ∧
    sha256Sum f2
        (sha256WriteSt c8 (sha256WriteSt c8 (sha256Reset iv8) m1) m2) [] =
      sha256Sum f2 (sha256WriteSt c8 (sha256Reset iv8) (m1 ++ m2)) [] ∧
    sha512Sum f5
        (sha512WriteSt c8x (sha512WriteSt c8x (sha512Reset iv8x) m1) m2) [] =
      sha512Sum f5 (sha512WriteSt c8x (sha512Reset iv8x) (m1 ++ m2)) [] := by
  rw [sha1WriteSt_append, sha256WriteSt_append, sha512WriteSt_append]
  exact ⟨rfl, rfl, rfl⟩

/-- C8: Write always returns the pair (length of the input, nil error);
an empty input leaves the context untouched (the primitive Update is not
called, by the length guard); and the only failure path is the modelled
panic, which is unreachable because the primitive success flag
(shaUpdateOk, modelled from the spec) is always true — so Write always
returns Except.ok and never an error value. -/
theorem claim_c8_write_total
    (c5 : Words5 → List Nat → Words5) (c8 c8x : Words8 → List Nat → Words8)
    (d1 : Sha1Ctx) (d2 d3 : Sha256Ctx) (d4 d5 : Sha512Ctx) (p : List Nat) :
    (sha1Write c5 d1 p = Except.ok (sha1WriteSt c5 d1 p, p.length, none) ∧
      sha1WriteSt c5 d1 [] = d1) ∧
    (sha224Write c8 d2 p =
        Except.ok (sha256WriteSt c8 d2 p, p.length, none) ∧
      sha256WriteSt c8 d2 [] = d2) ∧
    (sha256Write c8 d3 p =
        Except.ok (sha256WriteSt c8 d3 p, p.length, none) ∧
      sha256WriteSt c8 d3 [] = d3) ∧
    (sha384Write c8x d4 p =
        Except.ok (sha512WriteSt c8x d4 p, p.length, none) ∧
      sha512WriteSt c8x d4 [] = d4) ∧
    (sha512Write c8x d5 p =
        Except.ok (sha512WriteSt c8x d5 p, p.length, none) ∧
      sha512WriteSt c8x d5 [] = d5) := by
  refine ⟨⟨?_, rfl⟩, ⟨?_, rfl⟩, ⟨?_, rfl⟩, ⟨?_, rfl⟩, ⟨?_, rfl⟩⟩ <;>
    · simp only [sha1Write, sha224Write, sha256Write, sha384Write,
        sha512Write, sha1WriteSt, sha256WriteSt, sha512WriteSt, shaUpdateOk]
      split <;> rfl

/-- C10: the auxiliary write methods agree with Write on the four adapters
that define them: WriteString is extensionally the same operation as Write
on the byte content of the string (same state effect, returns the length
and nil), and WriteByte is Write of the one-byte slice with the count
dropped from the return value. -/
theorem claim_c10_auxiliary_writes
    (c5 : Words5 → List Nat → Words5) (c8 c8x : Words8 → List Nat → Words8)
    (d1 : Sha1Ctx) (d2 : Sha256Ctx) (d4 d5 : Sha512Ctx)
    (s : List Nat) (b : Nat) :
    (sha1WriteString c5 d1 s = sha1Write c5 d1 s ∧
      sha1WriteString c5 d1 s =
        Except.ok (sha1WriteSt c5 d1 s, s.length, none) ∧
      sha1WriteByte c5 d1 b =
        Except.map (fun r => (r.1, r.2.2)) (sha1Write c5 d1 [b]) ∧
      sha1WriteByte c5 d1 b = Except.ok (sha1WriteSt c5 d1 [b], none)) ∧
    (sha256WriteString c8 d2 s = sha256Write c8 d2 s ∧
      sha256WriteString c8 d2 s =
        Except.ok (sha256WriteSt c8 d2 s, s.length, none) ∧
      sha256WriteByte c8 d2 b =
        Except.map (fun r => (r.1, r.2.2)) (sha256Write c8 d2 [b]) ∧
      sha256WriteByte c8 d2 b = Except.ok (sha256WriteSt c8 d2 [b], none)) ∧
    (sha384WriteString c8x d4 s = sha384Write c8x d4 s ∧
      sha384WriteString c8x d4 s =
        Except.ok (sha512WriteSt c8x d4 s, s.length, none) ∧
      sha384WriteByte c8x d4 b =
        Except.map (fun r => (r.1, r.2.2)) (sha384Write c8x d4 [b]) ∧
      sha384WriteByte c8x d4 b = Except.ok (sha512WriteSt c8x d4 [b], none)) ∧
    (sha512WriteString c8x d5 s = sha512Write c8x d5 s ∧
      sha512WriteString c8x d5 s =
        Except.ok (sha512WriteSt c8x d5 s, s.length, none) ∧
      sha512WriteByte c8x d5 b =
        Except.map (fun r => (r.1, r.2.2)) (sha512Write c8x d5 [b]) ∧
      sha512WriteByte c8x d5 b = Except.ok (sha512WriteSt c8x d5 [b], none)) := by
  refine ⟨⟨rfl, ?_, rfl, rfl⟩, ⟨rfl, ?_, rfl, rfl⟩,
    ⟨rfl, ?_, rfl, rfl⟩, ⟨rfl, ?_, rfl, rfl⟩⟩ <;>
    · simp only [sha1WriteString, sha256WriteString, sha384WriteString,
        sha512WriteString, sha1WriteSt, sha256WriteSt, sha512WriteSt,
        shaUpdateOk]
      split <;> rfl

/-- C3: for every variant and every input, UnmarshalBinary reports the
identifier error exactly when the input is shorter than the 4-byte magic or
its leading bytes differ from the variant magic; otherwise the size error
exactly when the length differs from the fixed marshaled size (96, 108 and
204 bytes); otherwise it succeeds.  The two error messages are distinct in
every family. -/
theorem claim_c3_unmarshal_errors
    (d1 : Sha1Ctx) (d2 d3 : Sha256Ctx) (d4 d5 : Sha512Ctx) (b : List Nat) :
    ((sha1UnmarshalBinary d1 b).2 =
      if b.length < sha1Magic.length ∨ b.take sha1Magic.length ≠ sha1Magic
      then some "crypto/sha1: invalid hash state identifier"
      else if b.length ≠ sha1MarshaledSize then
        some "crypto/sha1: invalid hash state size"
      else none) ∧
    ((sha224UnmarshalBinary d2 b).2 =
      if b.length < magic224.length ∨ b.take magic224.length ≠ magic224
      then some "crypto/sha256: invalid hash state identifier"
      else if b.length ≠ marshaledSize256 then
        some "crypto/sha256: invalid hash state size"
      else none) ∧
    ((sha256UnmarshalBinary d3 b).2 =
      if b.length < magic256.length ∨ b.take magic256.length ≠ magic256
      then some "crypto/sha256: invalid hash state identifier"
      else if b.length ≠ marshaledSize256 then
        some "crypto/sha256: invalid hash state size"
      else none) ∧
    ((sha384UnmarshalBinary d4 b).2 =
      if b.length < magic512.length ∨ b.take magic384.length ≠ magic384
      then some "crypto/sha512: invalid hash state identifier"
      else if b.length ≠ marshaledSize512 then
        some "crypto/sha512: invalid hash state size"
      else none) ∧
    ((sha512UnmarshalBinary d5 b).2 =
      if b.length < magic512.length ∨ b.take magic512.length ≠ magic512
      then some "crypto/sha512: invalid hash state identifier"
      else if b.length ≠ marshaledSize512 then
        some "crypto/sha512: invalid hash state size"
      else none) ∧
    sha1Magic.length = 4 ∧ magic224.length = 4 ∧ magic256.length = 4 ∧
    magic384.length = 4 ∧ magic512.length = 4 ∧
    sha1MarshaledSize = 96 ∧ marshaledSize256 = 108 ∧
    marshaledSize512 = 204 ∧
    ("crypto/sha1: invalid hash state identifier" : String) ≠
      "crypto/sha1: invalid hash state size" ∧
    ("crypto/sha256: invalid hash state identifier" : String) ≠
      "crypto/sha256: invalid hash state size" ∧
    ("crypto/sha512: invalid hash state identifier" : String) ≠
      "crypto/sha512: invalid hash state size" := by
  refine ⟨?_, ?_, ?_, ?_, ?_, rfl, rfl, rfl, rfl, rfl, rfl, rfl, rfl,
    by decide, by decide, by decide⟩
  · simp only [sha1UnmarshalBinary]
    split_ifs <;> rfl
  · simp only [sha224UnmarshalBinary]
    split_ifs <;> rfl
  · simp only [sha256UnmarshalBinary]
    split_ifs <;> rfl
  · simp only [sha384UnmarshalBinary]
    split_ifs <;> first | rfl | tauto
  · simp only [sha512UnmarshalBinary]
    split_ifs <;> first | rfl | tauto

/-- C9: UnmarshalBinary is atomic on failure: whenever it returns an error
(identifier or size), the receiver context is completely unchanged, for
every variant and every input — all validation precedes any mutation. -/
theorem claim_c9_unmarshal_atomic
    (d1 : Sha1Ctx) (d2 d3 : Sha256Ctx) (d4 d5 : Sha512Ctx) (b : List Nat) :
    ((sha1UnmarshalBinary d1 b).2 ≠ none →
      (sha1UnmarshalBinary d1 b).1 = d1) ∧
    ((sha224UnmarshalBinary d2 b).2 ≠ none →
      (sha224UnmarshalBinary d2 b).1 = d2) ∧
    ((sha256UnmarshalBinary d3 b).2 ≠ none →
      (sha256UnmarshalBinary d3 b).1 = d3) ∧
    ((sha384UnmarshalBinary d4 b).2 ≠ none →
      (sha384UnmarshalBinary d4 b).1 = d4) ∧
    ((sha512UnmarshalBinary d5 b).2 ≠ none →
      (sha512UnmarshalBinary d5 b).1 = d5) := by
  refine ⟨?_, ?_, ?_, ?_, ?_⟩
  · simp only [sha1UnmarshalBinary]
    split_ifs <;> simp
  · simp only [sha224UnmarshalBinary]
    split_ifs <;> simp
  · simp only [sha256UnmarshalBinary]
    split_ifs <;> simp
  · simp only [sha384UnmarshalBinary]
    split_ifs <;> simp
  · simp only [sha512UnmarshalBinary]
    split_ifs <;> simp

/-- Witness for C9 at a concrete failing input (the empty snapshot). -/
theorem claim_c9_witness :
    (sha1UnmarshalBinary (sha1Reset ⟨0, 0, 0, 0, 0⟩) []).1 =
      sha1Reset ⟨0, 0, 0, 0, 0⟩ :=
  (claim_c9_unmarshal_atomic (sha1Reset ⟨0, 0, 0, 0, 0⟩)
    (sha256Reset ⟨0, 0, 0, 0, 0, 0, 0, 0⟩)
    (sha256Reset ⟨0, 0, 0, 0, 0, 0, 0, 0⟩)
    (sha512Reset ⟨0, 0, 0, 0, 0, 0, 0, 0⟩)
    (sha512Reset ⟨0, 0, 0, 0, 0, 0, 0, 0⟩) []).1 (by decide)

/-- C2: MarshalBinary never fails (the error component is always nil — and
as a pure function of the context it is trivially deterministic), its
output is exactly the spec-described layout (magic tag, big-endian chaining
words, valid buffer bytes zero-padded to the block size, 8-byte big-endian
packed total-length field), and the total size is fixed: 96 bytes for
SHA-1, 108 for SHA-224/256, 204 for SHA-384/512.  The layout equations are
unconditional; the size equations assume the structural validity that the
Go types enforce (a block-sized buffer array and a valid count not
exceeding it). -/
theorem claim_c2_marshal_layout
    (d1 : Sha1Ctx) (d2 : Sha256Ctx) (d5 : Sha512Ctx)
    (h1x : d1.x.length = 64) (h1n : d1.nx ≤ 64)
    (h2x : d2.x.length = 64) (h2n : d2.nx ≤ 64)
    (h5x : d5.x.length = 128) (h5n : d5.nx ≤ 128) :
    sha1MarshalBinary d1 = (sha1SpecLayout d1, none) ∧
    sha224MarshalBinary d2 = (sha256SpecLayout magic224 d2, none) ∧
    sha256MarshalBinary d2 = (sha256SpecLayout magic256 d2, none) ∧
    sha384MarshalBinary d5 = (sha512SpecLayout magic384 d5, none) ∧
    sha512MarshalBinary d5 = (sha512SpecLayout magic512 d5, none) ∧
    (sha1MarshalBinary d1).1.length = 96 ∧
    (sha224MarshalBinary d2).1.length = 108 ∧
    (sha256MarshalBinary d2).1.length = 108 ∧
    (sha384MarshalBinary d5).1.length = 204 ∧
    (sha512MarshalBinary d5).1.length = 204 := by
  refine ⟨?_, ?_, ?_, ?_, ?_, ?_, ?_, ?_, ?_, ?_⟩
  · refine Prod.ext ?_ rfl
    simp [sha1MarshalBinary, sha1SpecLayout, beBytes_four, beBytes_eight,
      appendUint32, appendUint64, List.append_assoc]
  · refine Prod.ext ?_ rfl
    simp [sha224MarshalBinary, sha256SpecLayout, beBytes_four,
      beBytes_eight, appendUint32, appendUint64, List.append_assoc]
  · refine Prod.ext ?_ rfl
    simp [sha256MarshalBinary, sha256SpecLayout, beBytes_four,
      beBytes_eight, appendUint32, appendUint64, List.append_assoc]
  · refine Prod.ext ?_ rfl
    simp [sha384MarshalBinary, sha512SpecLayout, beBytes_eight,
      appendUint64, List.append_assoc]
  · refine Prod.ext ?_ rfl
    simp [sha512MarshalBinary, sha512SpecLayout, beBytes_eight,
      appendUint64, List.append_assoc]
  · rw [sha1_marshal_eq]
    simp [List.length_append, putUint32_length, putUint64_length,
      List.length_take, h1x, sha1Magic]
    omega
  · rw [sha224_marshal_eq]
    simp [List.length_append, putUint32_length, putUint64_length,
      List.length_take, h2x, magic224]
    omega
  · rw [sha256_marshal_eq]
    simp [List.length_append, putUint32_length, putUint64_length,
      List.length_take, h2x, magic256]
    omega
  · rw [sha384_marshal_eq]
    simp [List.length_append, putUint64_length, List.length_take, h5x,
      magic384]
    omega
  · rw [sha512_marshal_eq]
    simp [List.length_append, putUint64_length, List.length_take, h5x,
      magic512]
    omega

/-- Witness for C2 at the freshly Reset contexts. -/
theorem claim_c2_witness :
    (sha1MarshalBinary (sha1Reset ⟨0, 0, 0, 0, 0⟩)).1.length = 96 :=
  (claim_c2_marshal_layout (sha1Reset ⟨0, 0, 0, 0, 0⟩)
    (sha256Reset ⟨0, 0, 0, 0, 0, 0, 0, 0⟩)
    (sha512Reset ⟨0, 0, 0, 0, 0, 0, 0, 0⟩)
    (by decide) (by decide) (by decide) (by decide) (by decide)
    (by decide)).2.2.2.2.2.1

/-- C4: the total-length packing is exactly invertible over the reachable
counter range: for a total byte count T below 2 ^ 61, the 32-bit-word
decode (shifts 3 and 29, modulus 64) and the 64-bit-word decode (shifts 3
and 61, modulus 128) recover nl, nh and the pending-buffer count from the
packed 64-bit field. -/
theorem claim_c4_length_packing (T : Nat) (hT : T < 2 ^ 61) :
    lenUnpack32 (lenPack32 (8 * T % 2 ^ 32) (8 * T / 2 ^ 32)) =
      (8 * T % 2 ^ 32, 8 * T / 2 ^ 32, T % 64) ∧
    lenUnpack64 (lenPack64 (8 * T) (8 * T / 2 ^ 64)) =
      (8 * T, 8 * T / 2 ^ 64, T % 128) := by
  constructor
  · unfold lenPack32 lenUnpack32
    rw [lor_mul_pow _ _ 29 (by omega)]
    refine Prod.ext ?_ (Prod.ext ?_ ?_) <;> simp only <;> omega
  · unfold lenPack64 lenUnpack64
    have hsplit : 8 * T / 2 ^ 64 * 2 ^ 61 % 2 ^ 64 =
        8 * T / 2 ^ 64 % 8 * 2 ^ 61 := by
      generalize 8 * T / 2 ^ 64 = nh
      omega
    rw [hsplit, lor_mul_pow _ _ 61 (by omega)]
    refine Prod.ext ?_ (Prod.ext ?_ ?_) <;> simp only <;> omega

/-- Witness for C4 at a byte count large enough to exercise the high
counter word of the 32-bit variants. -/
theorem claim_c4_witness :
    lenUnpack32 (lenPack32 (8 * (2 ^ 35 + 77) % 2 ^ 32)
      (8 * (2 ^ 35 + 77) / 2 ^ 32)) =
      (8 * (2 ^ 35 + 77) % 2 ^ 32, 8 * (2 ^ 35 + 77) / 2 ^ 32,
        (2 ^ 35 + 77) % 64) :=
  (claim_c4_length_packing (2 ^ 35 + 77) (by norm_num)).1

/-! Helper lemmas for the pending-buffer invariant. -/

theorem sha1WriteSt_nx_lt (c5 : Words5 → List Nat → Words5) (d : Sha1Ctx)
    (p : List Nat) (hd : d.nx < 64) : (sha1WriteSt c5 d p).nx < 64 := by
  unfold sha1WriteSt
  split
  · show (sha1Update c5 d p).nx < 64
    show (absorb 64 c5 d.h (d.x.take d.nx ++ p)).2.length < 64
    rw [absorb_len 64 c5 (by norm_num) (d.x.take d.nx ++ p).length d.h
      (d.x.take d.nx ++ p) (le_refl _)]
    exact Nat.mod_lt _ (by norm_num)
  · exact hd

theorem sha1Writes_nx_lt (c5 : Words5 → List Nat → Words5) (iv : Words5)
    (ms : List (List Nat)) : (sha1Writes c5 iv ms).nx < 64 := by
  suffices hgen : ∀ (ms : List (List Nat)) (d : Sha1Ctx), d.nx < 64 →
      (ms.foldl (sha1WriteSt c5) d).nx < 64 by
    exact hgen ms (sha1Reset iv) (by norm_num [sha1Reset])
  intro ms
  induction ms with
  | nil => exact fun d hd => hd
  | cons m rest ih =>
    exact fun d hd => ih (sha1WriteSt c5 d m) (sha1WriteSt_nx_lt c5 d m hd)

theorem sha256WriteSt_nx_lt (c8 : Words8 → List Nat → Words8)
    (d : Sha256Ctx) (p : List Nat) (hd : d.nx < 64) :
    (sha256WriteSt c8 d p).nx < 64 := by
  unfold sha256WriteSt
  split
  · show (sha256Update c8 d p).nx < 64
    show (absorb 64 c8 d.h (d.x.take d.nx ++ p)).2.length < 64
    rw [absorb_len 64 c8 (by norm_num) (d.x.take d.nx ++ p).length d.h
      (d.x.take d.nx ++ p) (le_refl _)]
    exact Nat.mod_lt _ (by norm_num)
  · exact hd

theorem sha256Writes_nx_lt (c8 : Words8 → List Nat → Words8) (iv : Words8)
    (ms : List (List Nat)) : (sha256Writes c8 iv ms).nx < 64 := by
  suffices hgen : ∀ (ms : List (List Nat)) (d : Sha256Ctx), d.nx < 64 →
      (ms.foldl (sha256WriteSt c8) d).nx < 64 by
    exact hgen ms (sha256Reset iv) (by norm_num [sha256Reset])
  intro ms
  induction ms with
  | nil => exact fun d hd => hd
  | cons m rest ih =>
    exact fun d hd => ih (sha256WriteSt c8 d m) (sha256WriteSt_nx_lt c8 d m hd)

theorem sha512WriteSt_nx_lt (c8 : Words8 → List Nat → Words8)
    (d : Sha512Ctx) (p : List Nat) (hd : d.nx < 128) :
    (sha512WriteSt c8 d p).nx < 128 := by
  unfold sha512WriteSt
  split
  · show (sha512Update c8 d p).nx < 128
    show (absorb 128 c8 d.h (d.x.take d.nx ++ p)).2.length < 128
    rw [absorb_len 128 c8 (by norm_num) (d.x.take d.nx ++ p).length d.h
      (d.x.take d.nx ++ p) (le_refl _)]
    exact Nat.mod_lt _ (by norm_num)
  · exact hd

theorem sha512Writes_nx_lt (c8 : Words8 → List Nat → Words8) (iv : Words8)
    (ms : List (List Nat)) : (sha512Writes c8 iv ms).nx < 128 := by
  suffices hgen : ∀ (ms : List (List Nat)) (d : Sha512Ctx), d.nx < 128 →
      (ms.foldl (sha512WriteSt c8) d).nx < 128 by
    exact hgen ms (sha512Reset iv) (by norm_num [sha512Reset])
  intro ms
  induction ms with
  | nil => exact fun d hd => hd
  | cons m rest ih =>
    exact fun d hd => ih (sha512WriteSt c8 d m) (sha512WriteSt_nx_lt c8 d m hd)

/-- The 128-byte buffer section of a marshaled SHA-512 context sits at
offsets 68..195 and is the pending tail padded with zeros. -/
theorem sha512_marshal_buffer (d : Sha512Ctx) (hx : d.x.length = 128)
    (hn : d.nx ≤ 128) :
    ((sha512MarshalBinary d).1.drop 68).take 128 =
      d.x.take d.nx ++ List.replicate (128 - d.nx) 0 := by
  have hbuf : (d.x.take d.nx ++ List.replicate (128 - d.nx) 0).length =
      128 := by
    simp [List.length_take, hx]
    omega
  have hre : (sha512MarshalBinary d).1 =
      (magic512 ++ putUint64 d.h.w0 ++ putUint64 d.h.w1 ++
        putUint64 d.h.w2 ++ putUint64 d.h.w3 ++ putUint64 d.h.w4 ++
        putUint64 d.h.w5 ++ putUint64 d.h.w6 ++ putUint64 d.h.w7) ++
      ((d.x.take d.nx ++ List.replicate (128 - d.nx) 0) ++
        putUint64 (lenPack64 d.nl d.nh)) := by
    simp [sha512MarshalBinary, appendUint64, List.append_assoc]
  have hPlen : (magic512 ++ putUint64 d.h.w0 ++ putUint64 d.h.w1 ++
      putUint64 d.h.w2 ++ putUint64 d.h.w3 ++ putUint64 d.h.w4 ++
      putUint64 d.h.w5 ++ putUint64 d.h.w6 ++
      putUint64 d.h.w7).length = 68 := by
    simp [List.length_append, putUint64_length, magic512]
  rw [hre, List.drop_left' hPlen, List.take_left' hbuf]

/-- C7: the pending-buffer valid count of every reachable context is
strictly below the block size (64 for the 32-bit-word shapes, 128 for
SHA-384/512); and a SHA-512 context right after one full 128-byte Write has
a zero pending count, so the 128-byte buffer section of its marshaled form
(offsets 68..195) is all zeros. -/
theorem claim_c7_buffer_invariant
    (c5 : Words5 → List Nat → Words5) (c8 c8x : Words8 → List Nat → Words8)
    (iv5 : Words5) (iv8 iv8x : Words8) (ms1 ms2 ms3 : List (List Nat))
    (p : List Nat) (hp : p.length = 128) :
    (sha1Writes c5 iv5 ms1).nx < 64 ∧
    (sha256Writes c8 iv8 ms2).nx < 64 ∧
    (sha512Writes c8x iv8x ms3).nx < 128 ∧
    (sha512WriteSt c8x (sha512Reset iv8x) p).nx = 0 ∧
    ((sha512MarshalBinary
        (sha512WriteSt c8x (sha512Reset iv8x) p)).1.drop 68).take 128 =
      List.replicate 128 0 := by
  have h128 : 0 < p.length := by omega
  have habs : (absorb 128 c8x (sha512Reset iv8x).h
      ((sha512Reset iv8x).x.take (sha512Reset iv8x).nx ++ p)).2.length =
      0 := by
    show (absorb 128 c8x iv8x ((List.replicate 128 0).take 0 ++ p)).2.length
      = 0
    simp only [List.take_zero, List.nil_append]
    rw [absorb_len 128 c8x (by norm_num) p.length iv8x p (le_refl _), hp]
  have hnx0 : (sha512WriteSt c8x (sha512Reset iv8x) p).nx = 0 := by
    unfold sha512WriteSt
    rw [if_pos h128]
    exact habs
  have hxlen : (sha512WriteSt c8x (sha512Reset iv8x) p).x.length = 128 := by
    unfold sha512WriteSt
    rw [if_pos h128]
    show ((absorb 128 c8x (sha512Reset iv8x).h
      ((sha512Reset iv8x).x.take (sha512Reset iv8x).nx ++ p)).2 ++
      List.replicate (128 - (absorb 128 c8x (sha512Reset iv8x).h
        ((sha512Reset iv8x).x.take (sha512Reset iv8x).nx ++ p)).2.length)
        0).length = 128
    simp [List.length_append, List.length_replicate, habs]
  refine ⟨sha1Writes_nx_lt c5 iv5 ms1, sha256Writes_nx_lt c8 iv8 ms2,
    sha512Writes_nx_lt c8x iv8x ms3, hnx0, ?_⟩
  rw [sha512_marshal_buffer _ hxlen (by omega), hnx0]
  simp

/-- Witness for C7 at a concrete 128-byte write. -/
theorem claim_c7_witness :
    ((sha512MarshalBinary
        (sha512WriteSt (fun w _ => w) (sha512Reset ⟨0, 0, 0, 0, 0, 0, 0, 0⟩)
          (List.replicate 128 9))).1.drop 68).take 128 =
      List.replicate 128 0 :=
  (claim_c7_buffer_invariant (fun w _ => w) (fun w _ => w) (fun w _ => w)
    ⟨0, 0, 0, 0, 0⟩ ⟨0, 0, 0, 0, 0, 0, 0, 0⟩ ⟨0, 0, 0, 0, 0, 0, 0, 0⟩
    [] [] [] (List.replicate 128 9) (by decide)).2.2.2.2

/-- C1 (amended): the marshal/unmarshal round trip restores the context
exactly — bit-for-bit state identity, hence identical behaviour of every
subsequent Write and Sum, which are functions of that state — for every
context reachable from Reset by a sequence of Writes, unconditionally for
the 32-bit-word variants (SHA-1, SHA-224, SHA-256) and provided fewer than
2 ^ 64 total bytes have been written for the 64-bit-word variants (SHA-384,
SHA-512), whose packed length field keeps only the low three bits of the
high counter word.  The compression function and initial chaining values
are abstract, constrained only to produce machine-word-sized values. -/
theorem claim_c1_roundtrip_amended
    (c5 : Words5 → List Nat → Words5) (c8 c8x : Words8 → List Nat → Words8)
    (iv5 : Words5) (iv8 iv8x : Words8)
    (hc5 : ∀ w b, Bounded5 w → Bounded5 (c5 w b)) (hiv5 : Bounded5 iv5)
    (hc8 : ∀ w b, Bounded8x32 w → Bounded8x32 (c8 w b))
    (hiv8 : Bounded8x32 iv8)
    (hc8x : ∀ w b, Bounded8x64 w → Bounded8x64 (c8x w b))
    (hiv8x : Bounded8x64 iv8x)
    (ms1 ms2 ms3 ms4 ms5 : List (List Nat))
    (hT4 : totalLen ms4 < 2 ^ 64) (hT5 : totalLen ms5 < 2 ^ 64)
    (d1 : Sha1Ctx) (d2 d3 : Sha256Ctx) (d4 d5 : Sha512Ctx) :
    sha1UnmarshalBinary d1
        (sha1MarshalBinary (sha1Writes c5 iv5 ms1)).1 =
      (sha1Writes c5 iv5 ms1, none) ∧
    sha224UnmarshalBinary d2
        (sha224MarshalBinary (sha256Writes c8 iv8 ms2)).1 =
      (sha256Writes c8 iv8 ms2, none) ∧
    sha256UnmarshalBinary d3
        (sha256MarshalBinary (sha256Writes c8 iv8 ms3)).1 =
      (sha256Writes c8 iv8 ms3, none) ∧
    sha384UnmarshalBinary d4
        (sha384MarshalBinary (sha512Writes c8x iv8x ms4)).1 =
      (sha512Writes c8x iv8x ms4, none) ∧
    sha512UnmarshalBinary d5
        (sha512MarshalBinary (sha512Writes c8x iv8x ms5)).1 =
      (sha512Writes c8x iv8x ms5, none) :=
  ⟨sha1_roundtrip_good d1 _ (totalLen ms1)
      (sha1Writes_good c5 hc5 iv5 hiv5 ms1),
    sha224_roundtrip_good d2 _ (totalLen ms2)
      (sha256Writes_good c8 hc8 iv8 hiv8 ms2),
    sha256_roundtrip_good d3 _ (totalLen ms3)
      (sha256Writes_good c8 hc8 iv8 hiv8 ms3),
    sha384_roundtrip_good d4 _ (totalLen ms4) hT4
      (sha512Writes_good c8x hc8x iv8x hiv8x ms4),
    sha512_roundtrip_good d5 _ (totalLen ms5) hT5
      (sha512Writes_good c8x hc8x iv8x hiv8x ms5)⟩

/-- Witness for the amended C1: a concrete SHA-1 round trip after two
writes crossing no block boundary. -/
theorem claim_c1_witness :
    sha1UnmarshalBinary (sha1Reset ⟨0, 0, 0, 0, 0⟩)
        (sha1MarshalBinary
          (sha1Writes (fun w _ => w) ⟨1, 2, 3, 4, 5⟩ [[9, 8, 7], [6]])).1 =
      (sha1Writes (fun w _ => w) ⟨1, 2, 3, 4, 5⟩ [[9, 8, 7], [6]], none) :=
  (claim_c1_roundtrip_amended (fun w _ => w) (fun w _ => w) (fun w _ => w)
    ⟨1, 2, 3, 4, 5⟩ ⟨0, 0, 0, 0, 0, 0, 0, 0⟩ ⟨0, 0, 0, 0, 0, 0, 0, 0⟩
    (fun _ _ hb => hb) (by unfold Bounded5; decide)
    (fun _ _ hb => hb) (by unfold Bounded8x32; decide)
    (fun _ _ hb => hb) (by unfold Bounded8x64; decide)
    [[9, 8, 7], [6]] [] [] [] [] (by decide) (by decide)
    (sha1Reset ⟨0, 0, 0, 0, 0⟩) (sha256Reset ⟨0, 0, 0, 0, 0, 0, 0, 0⟩)
    (sha256Reset ⟨0, 0, 0, 0, 0, 0, 0, 0⟩)
    (sha512Reset ⟨0, 0, 0, 0, 0, 0, 0, 0⟩)
    (sha512Reset ⟨0, 0, 0, 0, 0, 0, 0, 0⟩)).1

/-! Helper lemmas for the C1 counterexample: the context reached by one
full-block Write, computed with the message length kept symbolic so that
no tactic ever evaluates the (astronomically long) concrete message. -/

theorem sha512Writes_single (K : Words8 → List Nat → Words8) (iv : Words8)
    (p : List Nat) :
    sha512Writes K iv [p] = sha512WriteSt K (sha512Reset iv) p := rfl

theorem sha512WriteSt_pos (K : Words8 → List Nat → Words8) (d : Sha512Ctx)
    (p : List Nat) (h : 0 < p.length) :
    sha512WriteSt K d p = sha512Update K d p := by
  unfold sha512WriteSt
  exact if_pos h

/-- Update on a fresh context with a whole number of blocks: the pending
buffer stays empty and the counters hold the full bit count. -/
theorem sha512Update_reset_full (K : Words8 → List Nat → Words8)
    (iv : Words8) (p : List Nat) (hmod : p.length % 128 = 0) :
    sha512Update K (sha512Reset iv) p =
      ⟨(absorb 128 K iv p).1, 8 * p.length % 2 ^ 128 % 2 ^ 64,
        8 * p.length % 2 ^ 128 / 2 ^ 64, List.replicate 128 0, 0⟩ := by
  have hr2 : (absorb 128 K iv p).2 = [] := by
    apply List.eq_nil_of_length_eq_zero
    rw [absorb_len 128 K (by norm_num) p.length iv p (le_refl _)]
    exact hmod
  apply Sha512Ctx.ext
  · show (absorb 128 K iv p).1 = (absorb 128 K iv p).1
    rfl
  · show (0 * 2 ^ 64 + 0 + 8 * p.length) % 2 ^ 128 % 2 ^ 64 =
      8 * p.length % 2 ^ 128 % 2 ^ 64
    norm_num
  · show (0 * 2 ^ 64 + 0 + 8 * p.length) % 2 ^ 128 / 2 ^ 64 =
      8 * p.length % 2 ^ 128 / 2 ^ 64
    norm_num
  · show (absorb 128 K iv p).2 ++
      List.replicate (128 - (absorb 128 K iv p).2.length) 0 =
      List.replicate 128 0
    rw [hr2]
    simp
  · show (absorb 128 K iv p).2.length = 0
    rw [hr2]
    rfl

/-- The SHA-512 context reached from Reset by one Write of 2 ^ 64 zero
bytes: chaining values untouched by the constant compression function, bit
counter 2 ^ 67 (nl = 0, nh = 8), empty pending buffer. -/
theorem sha512Writes_big :
    sha512Writes (fun w _ => w) ⟨0, 0, 0, 0, 0, 0, 0, 0⟩
      [List.replicate (2 ^ 64) 0] =
      ⟨⟨0, 0, 0, 0, 0, 0, 0, 0⟩, 0, 8, List.replicate 128 0, 0⟩ := by
  have h1 := sha512Writes_single (fun w _ => w) ⟨0, 0, 0, 0, 0, 0, 0, 0⟩
    (List.replicate (2 ^ 64) 0)
  have h2 := sha512WriteSt_pos (fun w _ => w)
    (sha512Reset ⟨0, 0, 0, 0, 0, 0, 0, 0⟩) (List.replicate (2 ^ 64) 0)
    (by rw [List.length_replicate]; norm_num)
  have h3 := sha512Update_reset_full (fun w _ => w) ⟨0, 0, 0, 0, 0, 0, 0, 0⟩
    (List.replicate (2 ^ 64) 0) (by rw [List.length_replicate]; norm_num)
  have h4 : (absorb 128 (fun (w : Words8) (_ : List Nat) => w)
      ⟨0, 0, 0, 0, 0, 0, 0, 0⟩ (List.replicate (2 ^ 64) 0)).1 =
      ⟨0, 0, 0, 0, 0, 0, 0, 0⟩ :=
    absorb_const 128 _ (by norm_num) (fun _ _ => rfl) _ _
  have h5 : (8 : Nat) * (List.replicate (2 ^ 64) (0 : Nat)).length
      % 2 ^ 128 % 2 ^ 64 = 0 := by
    rw [List.length_replicate]
    norm_num
  have h6 : (8 : Nat) * (List.replicate (2 ^ 64) (0 : Nat)).length
      % 2 ^ 128 / 2 ^ 64 = 8 := by
    rw [List.length_replicate]
    norm_num
  rw [h1, h2, h3, h4, h5, h6]

/-- C1 counterexample: the claim as stated fails on the code.  The SHA-512
context reached from Reset by one Write of 2 ^ 64 zero bytes has bit
counter 2 ^ 67, i.e. nl = 0 and nh = 8; the packed length field
`nl>>3 | nh<<61` wraps `8 << 61` to zero, so unmarshalling the marshaled
state yields nh = 0 — not the original context.  (The divergence is
observable: nh feeds the length padding of every subsequent Sum.) -/
theorem claim_c1_counterexample :
    sha512UnmarshalBinary (sha512Reset ⟨0, 0, 0, 0, 0, 0, 0, 0⟩)
        (sha512MarshalBinary
          (sha512Writes (fun w _ => w) ⟨0, 0, 0, 0, 0, 0, 0, 0⟩
            [List.replicate (2 ^ 64) 0])).1 ≠
      (sha512Writes (fun w _ => w) ⟨0, 0, 0, 0, 0, 0, 0, 0⟩
        [List.replicate (2 ^ 64) 0], none) := by
  rw [sha512Writes_big]
  decide
